import Mathlib

/-!
Verification of the CLIProxyAPI sticky-session credential router and its
supporting parsers, as a shallow embedding in Lean 4.

The embedding covers:
* the Go standard-library fragments the router uses (`strings.TrimSpace`,
  `strings.SplitN`, `strings.ToLower`, `strconv.Atoi`, `crypto/sha256`,
  `encoding/hex`, `encoding/binary` big-endian, `net/http` header lookup,
  `net/url` query parsing);
* the sticky selector (`extractStickySessionKey`, `stableHash`,
  `extractBearerToken`, `rendezvousScore`, `pickRendezvous`, `authPriority`,
  `priorityFromAny`, `gcLocked`, `StickySelector.Pick`);
* the Kiro OAuth callback validation (`parseOAuthCallbackInput`,
  `parseAndValidateCallbackInput`);
* the Codex quota snapshot parsing and registry (`ParseCodexQuotaSnapshot`,
  `UpdateCodexQuotaSnapshot`, `GetCodexQuotaSnapshot`).

Machine integers are modelled as `Nat`/`Int` with explicit reductions modulo
2^32 / 2^64 where the Go code relies on wrap-around; `time.Time` values are
modelled as `Int` nanosecond instants, with `time.Duration` constants kept in
nanoseconds exactly as Go defines them.
-/

set_option maxRecDepth 100000

namespace CLIProxy

/-! ## Go `unicode`/`strings` helpers -/

/-- The Go `unicode.IsSpace` predicate (the Unicode `White_Space` property):
U+0009..U+000D, U+0020, U+0085, U+00A0, U+1680, U+2000..U+200A, U+2028,
U+2029, U+202F, U+205F, U+3000. -/
def isGoSpace (c : Char) : Bool :=
  let n := c.toNat
  (9 ≤ n && n ≤ 13) || n = 32 || n = 133 || n = 160 || n = 5760 ||
  (8192 ≤ n && n ≤ 8202) || n = 8232 || n = 8233 || n = 8239 || n = 8287 || n = 12288

/-- Go `strings.TrimSpace`: drop leading and trailing white space. -/
def goTrim (s : String) : String :=
  String.mk (((s.data.dropWhile isGoSpace).reverse.dropWhile isGoSpace).reverse)

/-- ASCII-only case folding, used solely to model `net/textproto`'s
canonical MIME header keys (`http.Header.Get`): textproto's
canonicalisation rewrites only the ASCII letters, so ASCII folding is the
exact case-equivalence of header-key lookup. -/
def asciiLowerChar (c : Char) : Char :=
  if 65 ≤ c.toNat && c.toNat ≤ 90 then Char.ofNat (c.toNat + 32) else c

/-- Lower-case a whole string (see `asciiLowerChar`). -/
def asciiLower (s : String) : String :=
  String.mk (s.data.map asciiLowerChar)

/-- Rune mapping of Go `strings.ToLower` (`unicode.ToLower`), carried
exactly on every code point whose simple lowercase mapping is ASCII: the
letters `A`–`Z`, U+0130 (`İ` → `i`) and U+212A (the Kelvin sign → `k`) —
per the Unicode case tables these three ranges are the only ones with an
ASCII image.  Any other rune is kept unchanged; Go may map it to a
different rune, but always to a non-ASCII one, and the embedded code only
compares lowered text against ASCII literals and ASCII character classes,
where a non-ASCII rune on either side compares unequal either way. -/
def goLowerChar (c : Char) : Char :=
  if 65 ≤ c.toNat && c.toNat ≤ 90 then Char.ofNat (c.toNat + 32)
  else if c.toNat = 304 then 'i'
  else if c.toNat = 8490 then 'k'
  else c

/-- Go `strings.ToLower` (see `goLowerChar`). -/
def goToLower (s : String) : String :=
  String.mk (s.data.map goLowerChar)

/-- Go `strings.SplitN(s, " ", 2)`: one element when `s` has no space,
otherwise the part before the first space and the remainder. -/
def splitN2Space (s : String) : List String :=
  match s.data.splitOnP (· = ' ') with
  | [] => [s]
  | one :: [] => [String.mk one]
  | first :: second :: rest =>
      [String.mk first,
       String.mk (List.intercalate [' '] (second :: rest))]

/-- Leftmost, non-overlapping split on a non-empty separator (Go
`strings.Split`), with fuel to keep the recursion structural (the fuel
`l.length` always suffices since every step consumes a character). -/
def listSplitOnFuel (sep : List Char) : Nat → List Char → List (List Char)
  | _, [] => [[]]
  | 0, l => [l]
  | fuel + 1, c :: rest =>
      if sep ≠ [] ∧ (c :: rest).take sep.length = sep then
        [] :: listSplitOnFuel sep fuel ((c :: rest).drop sep.length)
      else
        match listSplitOnFuel sep fuel rest with
        | [] => [[c]]
        | first :: others => (c :: first) :: others

/-- Go `strings.Split` on strings. -/
def goSplit (s sep : String) : List String :=
  (listSplitOnFuel sep.data s.data.length s.data).map String.mk

/-- Go `strings.HasPrefix`. -/
def goStartsWith (s pre : String) : Bool :=
  decide (s.data.take pre.data.length = pre.data)

/-! ## Bytes, UTF-8 and SHA-256

Go hashes `[]byte(s)`, the UTF-8 encoding of the string.  `sha256` below is
the FIPS 180-4 algorithm over byte lists, written with `Nat` arithmetic
reduced modulo 2^32. -/

/-- UTF-8 encoding of one code point, as byte values. -/
def utf8EncodeChar (c : Char) : List Nat :=
  let n := c.toNat
  if n < 128 then [n]
  else if n < 2048 then [192 + n / 64, 128 + n % 64]
  else if n < 65536 then [224 + n / 4096, 128 + (n / 64) % 64, 128 + n % 64]
  else [240 + n / 262144, 128 + (n / 4096) % 64, 128 + (n / 64) % 64, 128 + n % 64]

/-- UTF-8 encoding of a string: Go's `[]byte(s)`. -/
def utf8Encode (s : String) : List Nat :=
  (s.data.map utf8EncodeChar).flatten

/-- The 32-bit word modulus. -/
def w32 : Nat := 4294967296

/-- Rotate a 32-bit word right by `n`. -/
def rotr32 (n x : Nat) : Nat :=
  ((x >>> n) ||| (x <<< (32 - n))) % w32

/-- Bitwise complement of a 32-bit word. -/
def not32 (x : Nat) : Nat := x ^^^ (w32 - 1)

/-- SHA-256 `Ch(x,y,z)`. -/
def shaCh (x y z : Nat) : Nat := (x &&& y) ^^^ (not32 x &&& z)

/-- SHA-256 `Maj(x,y,z)`. -/
def shaMaj (x y z : Nat) : Nat := (x &&& y) ^^^ (x &&& z) ^^^ (y &&& z)

/-- SHA-256 `Σ0`. -/
def shaBigS0 (x : Nat) : Nat := rotr32 2 x ^^^ rotr32 13 x ^^^ rotr32 22 x

/-- SHA-256 `Σ1`. -/
def shaBigS1 (x : Nat) : Nat := rotr32 6 x ^^^ rotr32 11 x ^^^ rotr32 25 x

/-- SHA-256 `σ0`. -/
def shaSmS0 (x : Nat) : Nat := rotr32 7 x ^^^ rotr32 18 x ^^^ (x >>> 3)

/-- SHA-256 `σ1`. -/
def shaSmS1 (x : Nat) : Nat := rotr32 17 x ^^^ rotr32 19 x ^^^ (x >>> 10)

/-- The 64 SHA-256 round constants. -/
def sha256K : List Nat :=
  [1116352408, 1899447441, 3049323471, 3921009573, 961987163,
   1508970993, 2453635748, 2870763221, 3624381080, 310598401,
   607225278, 1426881987, 1925078388, 2162078206, 2614888103,
   3248222580, 3835390401, 4022224774, 264347078, 604807628,
   770255983, 1249150122, 1555081692, 1996064986, 2554220882,
   2821834349, 2952996808, 3210313671, 3336571891, 3584528711,
   113926993, 338241895, 666307205, 773529912, 1294757372,
   1396182291, 1695183700, 1986661051, 2177026350, 2456956037,
   2730485921, 2820302411, 3259730800, 3345764771, 3516065817,
   3600352804, 4094571909, 275423344, 430227734, 506948616,
   659060556, 883997877, 958139571, 1322822218, 1537002063,
   1747873779, 1955562222, 2024104815, 2227730452, 2361852424,
   2428436474, 2756734187, 3204031479, 3329325298]

/-- SHA-256 initial hash value. -/
def sha256H0 : List Nat :=
  [1779033703, 3144134277, 1013904242, 2773480762,
   1359893119, 2600822924, 528734635, 1541459225]

/-- Group bytes into big-endian 32-bit words. -/
def bytesToWords : List Nat → List Nat
  | b0 :: b1 :: b2 :: b3 :: rest =>
      (b0 * 16777216 + b1 * 65536 + b2 * 256 + b3) :: bytesToWords rest
  | _ => []

/-- Big-endian bytes of a number, fixed width. -/
def natToBytesBE : Nat → Nat → List Nat
  | 0, _ => []
  | n + 1, x => natToBytesBE n (x / 256) ++ [x % 256]

/-- Extend the 16 message-schedule words to 64. -/
def sha256Schedule (w0 : Array Nat) : Array Nat :=
  (List.range 48).foldl
    (fun w i =>
      let t := i + 16
      w.push ((shaSmS1 (w.getD (t - 2) 0) + w.getD (t - 7) 0 +
               shaSmS0 (w.getD (t - 15) 0) + w.getD (t - 16) 0) % w32))
    w0

/-- Working state of one compression round. -/
structure Sha256State where
  a : Nat
  b : Nat
  c : Nat
  d : Nat
  e : Nat
  f : Nat
  g : Nat
  h : Nat

/-- One SHA-256 round, fed the pair of round constant and schedule word. -/
def sha256Round (s : Sha256State) (kw : Nat × Nat) : Sha256State :=
  let t1 := (s.h + shaBigS1 s.e + shaCh s.e s.f s.g + kw.1 + kw.2) % w32
  let t2 := (shaBigS0 s.a + shaMaj s.a s.b s.c) % w32
  { a := (t1 + t2) % w32, b := s.a, c := s.b, d := s.c,
    e := (s.d + t1) % w32, f := s.e, g := s.f, h := s.g }

/-- Compress one padded 64-byte block into the running hash. -/
def sha256Compress (hv : List Nat) (block : List Nat) : List Nat :=
  match hv with
  | [a0, b0, c0, d0, e0, f0, g0, h0] =>
      let w := sha256Schedule (Array.mk (bytesToWords block))
      let s := (sha256K.zip w.toList).foldl sha256Round
                 ⟨a0, b0, c0, d0, e0, f0, g0, h0⟩
      [(a0 + s.a) % w32, (b0 + s.b) % w32, (c0 + s.c) % w32, (d0 + s.d) % w32,
       (e0 + s.e) % w32, (f0 + s.f) % w32, (g0 + s.g) % w32, (h0 + s.h) % w32]
  | _ => hv

/-- FIPS 180-4 padding: a 0x80 byte, zeros to 56 mod 64, then the bit length
as eight big-endian bytes. -/
def sha256Pad (msg : List Nat) : List Nat :=
  msg ++ [128] ++ List.replicate ((119 - msg.length % 64) % 64) 0 ++
    natToBytesBE 8 ((8 * msg.length) % (w32 * w32))

/-- Split a byte list into 64-byte blocks, with explicit fuel so that the
recursion is structural (the input length is a positive multiple of 64 after
padding, and the fuel `l.length` always suffices). -/
def chunks64Fuel : Nat → List Nat → List (List Nat)
  | 0, l => [l]
  | fuel + 1, l =>
      if l.length ≤ 64 then [l]
      else l.take 64 :: chunks64Fuel fuel (l.drop 64)

/-- Split a byte list into 64-byte blocks. -/
def chunks64 (l : List Nat) : List (List Nat) :=
  chunks64Fuel l.length l

/-- SHA-256 digest of a byte list, as 32 bytes. -/
def sha256 (msg : List Nat) : List Nat :=
  (((chunks64 (sha256Pad msg)).foldl sha256Compress sha256H0).map
    (natToBytesBE 4)).flatten

/-- One lower-case hex digit. -/
def hexDigit (n : Nat) : Char :=
  if n < 10 then Char.ofNat (48 + n) else Char.ofNat (87 + n)

/-- Go `hex.EncodeToString` over byte values. -/
def hexEncode (bs : List Nat) : String :=
  String.mk ((bs.map (fun b => [hexDigit (b / 16), hexDigit (b % 16)])).flatten)

/-- Big-endian `uint64` of (up to) eight bytes: Go
`binary.BigEndian.Uint64`. -/
def beUint64 (bs : List Nat) : Nat :=
  bs.foldl (fun acc b => acc * 256 + b) 0

/-! ## `strconv.Atoi` -/

/-- Value of a non-empty all-digit ASCII string. -/
def digitsToNat? (cs : List Char) : Option Nat :=
  if cs ≠ [] ∧ cs.all (fun c => 48 ≤ c.toNat ∧ c.toNat ≤ 57) then
    some (cs.foldl (fun acc c => acc * 10 + (c.toNat - 48)) 0)
  else none

/-- Go `strconv.Atoi`: optional sign, at least one ASCII digit, 64-bit range
check (`int` is 64 bits wide on the targeted platforms).  `none` models a
non-nil error. -/
def goAtoi (s : String) : Option Int :=
  match s.data with
  | '+' :: rest =>
      (digitsToNat? rest).bind fun n =>
        if n ≤ 9223372036854775807 then some (Int.ofNat n) else none
  | '-' :: rest =>
      (digitsToNat? rest).bind fun n =>
        if n ≤ 9223372036854775808 then some (-(Int.ofNat n)) else none
  | l =>
      (digitsToNat? l).bind fun n =>
        if n ≤ 9223372036854775807 then some (Int.ofNat n) else none

/-! ## `net/http` headers and the request body

`http.Header.Get` canonicalises the key (`textproto.CanonicalMIMEHeaderKey`)
and returns the first stored value, which amounts to an ASCII
case-insensitive lookup; absent keys give `""`.  The request body only ever
reaches the embedded code through `gjson.GetBytes(body, "metadata.user_id")`,
so the body is modelled as an abstract JSON value (`none` models an empty
`OriginalRequest`; a body that is not valid JSON behaves like `Json.null`,
for which the lookup yields `""` exactly as gjson does). -/

/-- HTTP headers as a list of key/value pairs. -/
structure Header where
  entries : List (String × String)

/-- Case-insensitive first-value lookup, Go `http.Header.Get`. -/
def Header.get (h : Header) (k : String) : String :=
  match h.entries.find? (fun e => asciiLower e.1 = asciiLower k) with
  | some e => e.2
  | none => ""

/-- Abstract JSON values.  `num`, `arr` and `obj` carry the raw JSON text
of the value as it stands in the request body, which is what gjson's
`Result.String()` returns for numbers (`Raw`-derived) and for array and
object results (`case JSON: return t.Raw`).  Arrays carry no element list:
the one embedded path, `metadata.user_id`, descends only through object
keys (gjson walks into arrays only via numeric or `#` path segments), so an
array can occur solely as the final result, where only its raw text is
consulted. -/
inductive Json where
  | null
  | bool (b : Bool)
  | num (raw : String)
  | str (s : String)
  | arr (raw : String)
  | obj (raw : String) (fields : List (String × Json))

/-- First field of a JSON object by key. -/
def jsonField : Json → String → Option Json
  | Json.obj _ fields, k => (fields.find? (fun f => f.1 = k)).map Prod.snd
  | _, _ => none

/-- gjson `Result.String()`: string values verbatim, booleans as
`"true"`/`"false"`, numbers and JSON (array or object) values as their raw
text, null and missing results `""`. -/
def gjsonString : Option Json → String
  | some (Json.str s) => s
  | some (Json.bool true) => "true"
  | some (Json.bool false) => "false"
  | some (Json.num raw) => raw
  | some (Json.arr raw) => raw
  | some (Json.obj raw _) => raw
  | _ => ""

/-- Function `gjson.GetBytes(body, "metadata.user_id").String()`. -/
def metadataUserID (body : Json) : String :=
  gjsonString ((jsonField body "metadata").bind (fun m => jsonField m "user_id"))

/-- The executor options the selector reads: headers and the original request
payload. -/
structure Options where
  headers : Option Header := none
  originalRequest : Option Json := none

/-! ## The sticky session key (`sticky_selector.go`) -/

/-- Function `stableHash`: hex of the first 16 bytes of the SHA-256 of the trimmed
input, `""` for blank input. -/
def stableHash (input : String) : String :=
  let input := goTrim input
  if input = "" then ""
  else hexEncode ((sha256 (utf8Encode input)).take 16)

/-- Defined following the spec text only: `sha256_16` is the hex of the first
16 bytes of SHA-256 (no trimming), used to state the claims. -/
def sha256_16 (s : String) : String :=
  hexEncode ((sha256 (utf8Encode s)).take 16)

/-- Function `extractBearerToken`: strip a case-insensitive `Bearer` scheme; return
the whole trimmed header when there is no scheme-plus-space shape or the
scheme is not `bearer`. -/
def extractBearerToken (header : String) : String :=
  let header := goTrim header
  if header = "" then ""
  else
    let parts := splitN2Space header
    if parts.length ≠ 2 then header
    else if goToLower (parts.headD "") ≠ "bearer" then header
    else goTrim (parts.getD 1 "")

/-- Character class `[a-f0-9-]` of `claudeSessionRegex`. -/
def isClaudeUUIDChar (c : Char) : Bool :=
  (97 ≤ c.toNat && c.toNat ≤ 102) || (48 ≤ c.toNat && c.toNat ≤ 57) || c = '-'

/-- Match `session_([a-f0-9-]{36})` anchored at the start of `l`, returning
the 36-character capture.  The pattern has a fixed length, so an anchored
match is exactly what Go's regexp engine tries at each position. -/
def claudeMatchAt (l : List Char) : Option String :=
  let body := (l.drop 8).take 36
  if l.take 8 = "session_".data ∧ body.length = 36 ∧ body.all isClaudeUUIDChar
  then some (String.mk body)
  else none

/-- Function `claudeSessionRegex.FindStringSubmatch`: leftmost match of
`session_([a-f0-9-]{36})`, returning the capture group. -/
def claudeSessionFind : List Char → Option String
  | [] => none
  | c :: rest =>
      match claudeMatchAt (c :: rest) with
      | some m => some m
      | none => claudeSessionFind rest

/-- Shared shape of the hash-based stages of `extractStickySessionKey`: a
non-empty token whose `stableHash` is non-empty yields `tag ++ hash`. -/
def keyFromToken (tag tok : String) : Option String :=
  if tok ≠ "" then
    let hashed := stableHash tok
    if hashed ≠ "" then some (tag ++ hashed) else none
  else none

/-- The Claude stage of the cascade: `metadata.user_id` (trimmed, lowered)
matched against `claudeSessionRegex`; `none` when the body is empty or does
not match. -/
def claudeStageKey (req : Option Json) : Option String :=
  match req with
  | some body =>
      let userID := goTrim (metadataUserID body)
      if userID ≠ "" then
        match claudeSessionFind (goToLower userID).data with
        | some uuid => some ("claude:" ++ uuid)
        | none => none
      else none
  | none => none

/-- Function `extractStickySessionKey`: the five-stage session-key cascade. -/
def extractStickySessionKey (opts : Options) : String :=
  let headers := opts.headers
  let sidKey : Option String :=
    match headers with
    | some hs => keyFromToken "codex:" (goTrim (hs.get "session_id"))
    | none => none
  match sidKey with
  | some k => k
  | none =>
    let claudeKey : Option String := claudeStageKey opts.originalRequest
    match claudeKey with
    | some k => k
    | none =>
      match headers with
      | none => ""
      | some hs =>
        match keyFromToken "apikey:" (extractBearerToken (hs.get "authorization")) with
        | some k => k
        | none =>
          match keyFromToken "apikey:" (goTrim (hs.get "x-api-key")) with
          | some k => k
          | none =>
            match keyFromToken "apikey:" (goTrim (hs.get "x-goog-api-key")) with
            | some k => k
            | none =>
              match keyFromToken "ua:" (goTrim (hs.get "user-agent")) with
              | some k => k
              | none => ""

/-- Function `rendezvousScore`: big-endian `uint64` of the first 8 bytes of
`SHA256(sessionKey || 0x00 || authID)`. -/
def rendezvousScore (sessionKey authID : String) : Nat :=
  beUint64 ((sha256 (utf8Encode sessionKey ++ [0] ++ utf8Encode authID)).take 8)

/-! ## Credential records

Modelled from the spec: the `Auth` record type, its status enum and the
quota/model state machines live outside the provided sources (only their
callers and tests are present), so they are taken from the spec's data model
(section 3): status enum, operator `disabled` bit, open `metadata` map,
string `attributes` map, global `QuotaState`, per-model `ModelState`.  Only
the fields the embedded operations read are carried.  Times are `Int`
nanosecond instants. -/

/-- Credential status, spec section 3. -/
inductive AuthStatus where
  | active
  | disabled
  | invalid
  | pending
deriving DecidableEq

/-- Global or per-model quota state (the fields selection reads). -/
structure QuotaState where
  exceeded : Bool := false
  nextRecoverAt : Int := 0
deriving DecidableEq

/-- Per-credential, per-model cooldown state. -/
structure ModelState where
  unavailable : Bool := false
  nextRetryAfter : Int := 0
  quota : QuotaState := {}
deriving DecidableEq

/-- A dynamically typed `metadata` value, the cases `priorityFromAny`
distinguishes.  Go `float64`/`float32` values are finite IEEE floats, every
one of which is an exact rational; they are carried as `ℚ` so that the `int`
truncation is the exact toward-zero truncation. -/
inductive MetaValue where
  | int (i : Int)
  | int64 (i : Int)
  | float64 (q : ℚ)
  | float32 (q : ℚ)
  | str (s : String)
  | other
deriving DecidableEq

/-- A credential record (spec: Credential Record). -/
structure Auth where
  id : String
  provider : String
  status : AuthStatus
  disabled : Bool := false
  metadata : List (String × MetaValue) := []
  attributes : List (String × String) := []
  quota : QuotaState := {}
  modelStates : List (String × ModelState) := []
deriving DecidableEq

/-- First-match association-list lookup (a Go map read). -/
def assocLookup {β : Type} (l : List (String × β)) (k : String) : Option β :=
  (l.find? (fun e => e.1 = k)).map Prod.snd

/-- Replace the first binding of `k`, or append one (a Go map write). -/
def assocInsert {β : Type} : List (String × β) → String → β → List (String × β)
  | [], k, v => [(k, v)]
  | e :: rest, k, v =>
      if e.1 = k then (k, v) :: rest else e :: assocInsert rest k v

/-- Remove every binding of `k` (a Go map delete; keys are unique). -/
def assocErase {β : Type} : List (String × β) → String → List (String × β)
  | [], _ => []
  | e :: rest, k => if e.1 = k then assocErase rest k else e :: assocErase rest k

/-! ## Priority -/

/-- Constant `defaultAuthPriority`. -/
def defaultAuthPriority : Int := 50

/-- Go `int(...)` of a float: truncation toward zero. -/
def truncRat (q : ℚ) : Int :=
  if 0 ≤ q then q.floor else q.ceil

/-- Function `priorityFromAny`: `(value, ok)` for int, int64, float64, float32 and
numeric-string metadata values. -/
def priorityFromAny : MetaValue → Int × Bool
  | .int i => (i, true)
  | .int64 i => (i, true)
  | .float64 q => (truncRat q, true)
  | .float32 q => (truncRat q, true)
  | .str s =>
      let s := goTrim s
      if s = "" then (0, false)
      else
        match goAtoi s with
        | some p => (p, true)
        | none => (0, false)
  | .other => (0, false)

/-- Function `authPriority`: `metadata["priority"]` first, then
`attributes["priority"]`, default 50. -/
def authPriority (a : Auth) : Int :=
  let fromMeta : Option Int :=
    match assocLookup a.metadata "priority" with
    | some v =>
        match priorityFromAny v with
        | (p, true) => some p
        | (_, false) => none
    | none => none
  match fromMeta with
  | some p => p
  | none =>
      let v := goTrim ((assocLookup a.attributes "priority").getD "")
      if v ≠ "" then
        match goAtoi v with
        | some p => p
        | none => defaultAuthPriority
      else defaultAuthPriority

/-! ## The sticky selector state machine -/

/-- Constant `stickySessionTTL = time.Hour`, in nanoseconds. -/
def stickySessionTTL : Int := 3600000000000

/-- Constant `stickyGCInterval = 10 * time.Minute`, in nanoseconds. -/
def stickyGCInterval : Int := 600000000000

/-- Constant `stickyGCMinEntries`. -/
def stickyGCMinEntries : Nat := 1024

/-- Structure `stickyBinding`: the value stored per `provider + ":" + sessionKey`. -/
structure stickyBinding where
  authID : String
  expiresAt : Int
  lastUsedAt : Int
deriving DecidableEq

/-- The selector's mutable state: the binding map, the last GC instant
(`0` models Go's zero `time.Time`), and the round-robin fallback counter. -/
structure StickySelector where
  bindings : List (String × stickyBinding) := []
  lastGC : Int := 0
  rrNext : Nat := 0
deriving DecidableEq

/-- The selector error value (`&Error{Code, Message}`). -/
structure SelectError where
  code : String
  message : String
deriving DecidableEq

/-- Modelled from the spec: `getAvailableAuths` is not among the provided
sources (only `Pick` calls it).  Spec section 4.3 step 1: keep candidates
with `status = Active`, not `disabled`, for which neither the unexpired
global `quota.exceeded` nor the model's cooldown state
(`unavailable`/`nextRetryAfter`, `quota.exceeded`/`nextRecoverAt`) forbids
selection at `now`. -/
def authEligible (a : Auth) (model : String) (now : Int) : Bool :=
  decide (a.status = AuthStatus.active) && !a.disabled &&
  !(a.quota.exceeded && decide (now < a.quota.nextRecoverAt)) &&
  (match assocLookup a.modelStates model with
   | some ms =>
       !(ms.unavailable && decide (now < ms.nextRetryAfter)) &&
       !(ms.quota.exceeded && decide (now < ms.quota.nextRecoverAt))
   | none => true)

/-- Modelled from the spec: filter the candidates; when none remain, fail
with `auth_not_found` (spec section 4.3 step 1). -/
def getAvailableAuths (auths : List Auth) (model : String) (now : Int) :
    Except SelectError (List Auth) :=
  let available := auths.filter (fun a => authEligible a model now)
  if available.isEmpty then
    Except.error { code := "auth_not_found", message := "no auth available" }
  else Except.ok available

/-- Function `gcLocked`: drop bindings with an empty `authID` or with
`now.After(expiresAt)`; stamp `lastGC`. -/
def gcLocked (s : StickySelector) (now : Int) : StickySelector :=
  if s.bindings.isEmpty then { s with lastGC := now }
  else
    { s with
      bindings := s.bindings.filter
        (fun e => ¬ (e.2.authID = "" ∨ e.2.expiresAt < now)),
      lastGC := now }

/-- The candidate loop body of `pickRendezvous`: keep the best
`(record, score)`; a higher score wins, an equal score with a smaller id
wins; empty-id candidates are skipped. -/
def rendezvousFoldStep (k : String) (best : Option (Auth × Nat)) (candidate : Auth) :
    Option (Auth × Nat) :=
  if candidate.id = "" then best
  else
    let score := rendezvousScore k candidate.id
    match best with
    | none => some (candidate, score)
    | some (b, bestScore) =>
        if score > bestScore ∨ (score = bestScore ∧ candidate.id < b.id)
        then some (candidate, score)
        else best

/-- Function `pickRendezvous`: the best candidate under the rendezvous order. -/
def pickRendezvous (sessionKey : String) (available : List Auth) : Option Auth :=
  if sessionKey = "" ∨ available.isEmpty then none
  else (available.foldl (rendezvousFoldStep sessionKey) none).map Prod.fst

/-- Modelled from the spec: the round-robin fallback selector
(`RoundRobinSelector` is not among the provided sources).  Spec section 4.3
step 2: with an empty session key the selector "falls back to round-robin
across the filtered candidates". -/
def rrPick (s : StickySelector) (now : Int) (model : String) (auths : List Auth) :
    Except SelectError Auth × StickySelector :=
  match getAvailableAuths auths model now with
  | Except.error e => (Except.error e, s)
  | Except.ok available =>
      match available.get? (s.rrNext % available.length) with
      | some a => (Except.ok a, { s with rrNext := s.rrNext + 1 })
      | none =>
          (Except.error { code := "auth_not_found", message := "no auth available" }, s)

/-- Go `int(^uint(0) >> 1)`: the largest 64-bit `int`. -/
def maxGoInt : Int := 9223372036854775807

/-- The load on one candidate id: the number of unexpired bindings of this
provider referencing it (`loadByAuthID`). -/
def bindingLoad (bindings : List (String × stickyBinding)) (provider : String)
    (now : Int) (id : String) : Nat :=
  (bindings.filter
    (fun e =>
      goStartsWith e.1 (provider ++ ":") ∧ e.2.authID ≠ "" ∧
      ¬ (e.2.expiresAt < now) ∧ e.2.authID = id)).length

/-- The new-session tail of `Pick` (reached when no live binding matched):
priority filter, load filter, rendezvous pick, commit. -/
def pickNewSession (s : StickySelector) (now : Int) (provider : String)
    (sessionKey bindingKey : String) (available : List Auth) :
    Except SelectError Auth × StickySelector :=
  let minPriority := available.foldl (fun m c => min m (authPriority c)) maxGoInt
  let filtered := available.filter (fun c => authPriority c = minPriority)
  let minLoad := filtered.foldl
    (fun m c => if c.id = "" then m
                else min m (Int.ofNat (bindingLoad s.bindings provider now c.id)))
    maxGoInt
  let loadFiltered := filtered.filter
    (fun c => c.id ≠ "" ∧ Int.ofNat (bindingLoad s.bindings provider now c.id) = minLoad)
  match pickRendezvous sessionKey loadFiltered with
  | none =>
      (Except.error { code := "auth_not_found", message := "no auth available" }, s)
  | some selected =>
      (Except.ok selected,
       { s with bindings := (assocInsert s.bindings bindingKey
           ⟨selected.id, now + stickySessionTTL, now⟩) })

/-- Function `StickySelector.Pick`: filter, extract the session key, run GC when due,
serve a live binding, otherwise select a new record and bind it. -/
def StickySelector.Pick (s : StickySelector) (now : Int) (provider model : String)
    (opts : Options) (auths : List Auth) :
    Except SelectError Auth × StickySelector :=
  match getAvailableAuths auths model now with
  | Except.error e => (Except.error e, s)
  | Except.ok available =>
      let sessionKey := extractStickySessionKey opts
      if sessionKey = "" then rrPick s now model auths
      else
        let bindingKey := provider ++ ":" ++ sessionKey
        let s :=
          if ¬ s.bindings.isEmpty ∧
             (stickyGCMinEntries ≤ s.bindings.length ∨ s.lastGC = 0 ∨
              stickyGCInterval ≤ now - s.lastGC)
          then gcLocked s now else s
        match assocLookup s.bindings bindingKey with
        | some existing =>
            if existing.authID ≠ "" ∧ now < existing.expiresAt then
              match available.find? (fun c => c.id = existing.authID) with
              | some candidate =>
                  (Except.ok candidate,
                   { s with bindings := (assocInsert s.bindings bindingKey
                       ⟨candidate.id, now + stickySessionTTL, now⟩) })
              | none => pickNewSession s now provider sessionKey bindingKey available
            else
              pickNewSession { s with bindings := assocErase s.bindings bindingKey }
                now provider sessionKey bindingKey available
        | none => pickNewSession s now provider sessionKey bindingKey available

/-! ## Kiro OAuth callback parsing (`callback_input.go`)

`net/url` is modelled to the depth the callback parser exercises: query
strings are split on `&`, pairs on the first `=`, both sides
percent-decoded with `+` as space; `url.ParseQuery` fails when any pair is
malformed (a `;` separator or a bad escape) while `URL.Query()` silently
drops such pairs.  `url.Parse` is modelled for the scheme-prefixed inputs
the parser guards for (`http://`, `https://`, `kiro://`): fragment split at
`#`, scheme at `://`, query at `?`, host up to the first `/`.  Its exotic
failure modes (control characters, malformed bracketed hosts) and escaped
path decoding are not modelled; no claim touches them. -/

/-- Value of one hex digit, Go `unhex`. -/
def hexVal (c : Char) : Option Nat :=
  if 48 ≤ c.toNat ∧ c.toNat ≤ 57 then some (c.toNat - 48)
  else if 97 ≤ c.toNat ∧ c.toNat ≤ 102 then some (c.toNat - 87)
  else if 65 ≤ c.toNat ∧ c.toNat ≤ 70 then some (c.toNat - 55)
  else none

/-- Go `url.QueryUnescape`: `%XX` escapes and `+` as space; `none` models
an escape error. -/
def unescapeQuery : List Char → Option (List Char)
  | [] => some []
  | '%' :: a :: b :: rest =>
      match hexVal a, hexVal b with
      | some x, some y => (unescapeQuery rest).map (fun t => Char.ofNat (16 * x + y) :: t)
      | _, _ => none
  | '%' :: _ => none
  | '+' :: rest => (unescapeQuery rest).map (fun t => ' ' :: t)
  | c :: rest => (unescapeQuery rest).map (fun t => c :: t)

/-- Cut a character list at the first occurrence of `sep`. -/
def cutFirst (sep : Char) (l : List Char) : List Char × List Char :=
  match l.span (fun c => c ≠ sep) with
  | (before, []) => (before, [])
  | (before, _ :: after) => (before, after)

/-- One `key=value` segment: `none` is a parse error, `some none` an empty
segment to skip, `some (some kv)` a decoded pair. -/
def parseQuerySegment (seg : String) : Option (Option (String × String)) :=
  if seg.data.contains ';' then none
  else if seg = "" then some none
  else
    let (k, v) := cutFirst '=' seg.data
    match unescapeQuery k, unescapeQuery v with
    | some kc, some vc => some (some (String.mk kc, String.mk vc))
    | _, _ => none

/-- Go `url.ParseQuery`: all pairs in order, failing when any segment is
malformed. -/
def parseQueryStrict (query : String) : Option (List (String × String)) :=
  (goSplit query "&").foldr
    (fun seg acc =>
      match acc, parseQuerySegment seg with
      | some l, some (some kv) => some (kv :: l)
      | some l, some none => some l
      | _, _ => none)
    (some [])

/-- Go `URL.Query()`: best effort, malformed pairs dropped. -/
def parseQueryLenient (query : String) : List (String × String) :=
  (goSplit query "&").foldr
    (fun seg acc =>
      match parseQuerySegment seg with
      | some (some kv) => kv :: acc
      | _ => acc)
    []

/-- Go `url.Values.Get`: first value for the key, `""` when absent. -/
def queryGet (vs : List (String × String)) (k : String) : String :=
  match vs.find? (fun e => e.1 = k) with
  | some e => e.2
  | none => ""

/-- Go `strings.Cut`: the parts before and after the first occurrence of
`sep`, and whether it occurred. -/
def goCut (s sep : String) : String × String × Bool :=
  match goSplit s sep with
  | [] => (s, "", false)
  | one :: [] => (one, "", false)
  | first :: rest =>
      (first, String.mk (List.intercalate sep.data (rest.map String.data)), true)

/-- The components of a parsed URL the callback parser reads. -/
structure GoURL where
  scheme : String
  host : String
  path : String
  rawQuery : String

/-- Go `url.Parse` to the depth used here (see the section comment). -/
def goURLParse (input : String) : GoURL :=
  let (rest, _, _) := goCut input "#"
  let (scheme, afterScheme, _) := goCut rest "://"
  let (beforeQuery, rawQuery, _) := goCut afterScheme "?"
  let (host, pathRest, hasSlash) := goCut beforeQuery "/"
  { scheme := scheme, host := host,
    path := if hasSlash then "/" ++ pathRest else "",
    rawQuery := rawQuery }

/-- Function `parseOAuthCallbackInput`: accepts a full URL, a `kiro://` URL or a raw
query string; returns `(code, state, errorParam, redirectURI)`.  `Except`
error strings model the Go error values. -/
def parseOAuthCallbackInput (raw : String) :
    Except String (String × String × String × String) :=
  let input := goTrim raw
  if input = "" then Except.error "empty callback input"
  else if goStartsWith input "http://" ∨ goStartsWith input "https://" ∨
          goStartsWith input "kiro://" then
    let u := goURLParse input
    let q := parseQueryLenient u.rawQuery
    let code := queryGet q "code"
    let state := queryGet q "state"
    let errParam := queryGet q "error"
    let redirectURI := u.scheme ++ "://" ++ u.host ++ u.path
    if errParam ≠ "" then Except.ok ("", state, errParam, redirectURI)
    else if code = "" then Except.error "missing code in callback"
    else if state = "" then Except.error "missing state in callback"
    else Except.ok (code, state, errParam, redirectURI)
  else
    match parseQueryStrict input with
    | none => Except.error "invalid callback query"
    | some vs =>
        let code := queryGet vs "code"
        let state := queryGet vs "state"
        let errParam := queryGet vs "error"
        if errParam ≠ "" then Except.ok ("", state, errParam, "")
        else if code = "" then Except.error "missing code in callback"
        else if state = "" then Except.error "missing state in callback"
        else Except.ok (code, state, errParam, "")

/-- Decidable equality of `Except` results, for evaluating the embedded
parsers at concrete inputs. -/
instance exceptDecEq {α β : Type} [DecidableEq α] [DecidableEq β] :
    DecidableEq (Except α β) := fun x y =>
  match x, y with
  | Except.ok a, Except.ok b =>
      if h : a = b then isTrue (by rw [h])
      else isFalse (by intro hc; cases hc; exact h rfl)
  | Except.error a, Except.error b =>
      if h : a = b then isTrue (by rw [h])
      else isFalse (by intro hc; cases hc; exact h rfl)
  | Except.ok _, Except.error _ => isFalse (by intro hc; cases hc)
  | Except.error _, Except.ok _ => isFalse (by intro hc; cases hc)

/-- The parsed callback handed to the token exchange. -/
structure AuthCallback where
  code : String
  state : String
  error : String
deriving DecidableEq

/-- Function `parseAndValidateCallbackInput`: parse, then reject on a state mismatch
(only when both the expected and the received state are non-empty). -/
def parseAndValidateCallbackInput (expectedState raw : String) :
    Except String (AuthCallback × String) :=
  match parseOAuthCallbackInput raw with
  | Except.error e => Except.error e
  | Except.ok (code, state, errParam, redirectURI) =>
      if expectedState ≠ "" ∧ state ≠ "" ∧ state ≠ expectedState then
        Except.error "state mismatch"
      else Except.ok (⟨code, state, errParam⟩, redirectURI)

/-! ## Codex quota snapshots (`codex_quota.go`)

`strconv.ParseFloat` is modelled as the exact decimal it denotes (every
finite float64 is a rational; the claims only use decimals that float64
represents exactly), over the decimal syntax — the hex-float and
inf/nan forms never occur in quota headers.  `strconv.ParseInt(v, 10, 64)`
coincides with the `Atoi` model. -/

/-- ASCII digit test. -/
def isDigitChar (c : Char) : Bool :=
  48 ≤ c.toNat && c.toNat ≤ 57

/-- Split an optional leading sign; `true` means negative. -/
def splitSign : List Char → Bool × List Char
  | '+' :: rest => (false, rest)
  | '-' :: rest => (true, rest)
  | l => (false, l)

/-- Numeric value of a digit list. -/
def digitsVal (cs : List Char) : Nat :=
  cs.foldl (fun a c => a * 10 + (c.toNat - 48)) 0

/-- Go `strconv.ParseFloat` on decimal syntax, as an exact rational (the
mantissa digits over a power of ten, with the decimal exponent folded in;
built with `mkRat` so the value reduces by plain `Nat`/`Int` arithmetic). -/
def goParseFloat (s : String) : Option ℚ :=
  let (neg, l1) := splitSign s.data
  let (ip, r1) := l1.span isDigitChar
  let (fp, r2) :=
    match r1 with
    | '.' :: rest => rest.span isDigitChar
    | _ => ([], r1)
  if ip = [] ∧ fp = [] then none
  else
    let mag : Int := Int.ofNat (digitsVal (ip ++ fp))
    let num : Int := if neg then -mag else mag
    let den : Nat := 10 ^ fp.length
    match r2 with
    | [] => some (mkRat num den)
    | 'e' :: e1 => expPart num den e1
    | 'E' :: e1 => expPart num den e1
    | _ => none
where
  /-- The exponent suffix: a signed non-empty digit run ending the string. -/
  expPart (num : Int) (den : Nat) (e1 : List Char) : Option ℚ :=
    let (eneg, ed) := splitSign e1
    let (digits, r3) := ed.span isDigitChar
    if digits = [] ∨ r3 ≠ [] then none
    else if eneg then some (mkRat num (den * 10 ^ digitsVal digits))
    else some (mkRat (num * Int.ofNat (10 ^ digitsVal digits)) den)

/-- The boolean header parser of `ParseCodexQuotaSnapshot`: trimmed,
lowered, `true`/`1`/`yes` and `false`/`0`/`no`. -/
def goHeaderBool (v : String) : Option Bool :=
  let v := goTrim v
  if v ≠ "" then
    if goToLower v = "true" ∨ goToLower v = "1" ∨ goToLower v = "yes" then some true
    else if goToLower v = "false" ∨ goToLower v = "0" ∨ goToLower v = "no" then some false
    else none
  else none

/-- Structure `CodexQuotaSnapshot`: the parsed quota observation.  `updatedAt` is the
`time.Now()` stamp. -/
structure CodexQuotaSnapshot where
  planType : String := ""
  primaryUsedPercent : Option ℚ := none
  primaryResetAfterSeconds : Option Int := none
  primaryWindowMinutes : Option Int := none
  secondaryUsedPercent : Option ℚ := none
  secondaryResetAfterSeconds : Option Int := none
  secondaryWindowMinutes : Option Int := none
  primaryOverSecondaryPercent : Option ℚ := none
  primaryResetAtSeconds : Option Int := none
  secondaryResetAtSeconds : Option Int := none
  creditsHasCredits : Option Bool := none
  creditsBalance : Option String := none
  creditsUnlimited : Option Bool := none
  updatedAt : Int := 0
deriving DecidableEq

/-- Function `ParseCodexQuotaSnapshot`: parse the `x-codex-*` headers; `none` when no
relevant header carries data.  `now` models the `time.Now()` call. -/
def ParseCodexQuotaSnapshot (now : Int) (headers : Option Header) :
    Option CodexQuotaSnapshot :=
  match headers with
  | none => none
  | some hs =>
      let parseFloatH := fun (key : String) =>
        (let v := hs.get key; if v ≠ "" then goParseFloat v else none)
      let parseIntH := fun (key : String) =>
        (let v := hs.get key; if v ≠ "" then goAtoi v else none)
      let parseStringH := fun (key : String) =>
        (let v := hs.get key; if v ≠ "" then some v else none)
      let planType := goTrim (hs.get "x-codex-plan-type")
      let primaryUsed := parseFloatH "x-codex-primary-used-percent"
      let primaryResetAfter := parseIntH "x-codex-primary-reset-after-seconds"
      let primaryWindow := parseIntH "x-codex-primary-window-minutes"
      let secondaryUsed := parseFloatH "x-codex-secondary-used-percent"
      let secondaryResetAfter := parseIntH "x-codex-secondary-reset-after-seconds"
      let secondaryWindow := parseIntH "x-codex-secondary-window-minutes"
      let primaryOverSecondary := parseFloatH "x-codex-primary-over-secondary-limit-percent"
      let primaryResetAt := parseIntH "x-codex-primary-reset-at"
      let secondaryResetAt := parseIntH "x-codex-secondary-reset-at"
      let creditsHas := goHeaderBool (hs.get "x-codex-credits-has-credits")
      let creditsBalance := parseStringH "x-codex-credits-balance"
      let creditsUnlimited := goHeaderBool (hs.get "x-codex-credits-unlimited")
      if planType ≠ "" ∨ primaryUsed.isSome ∨ primaryResetAfter.isSome ∨
         primaryWindow.isSome ∨ secondaryUsed.isSome ∨
         secondaryResetAfter.isSome ∨ secondaryWindow.isSome ∨
         primaryOverSecondary.isSome ∨ primaryResetAt.isSome ∨
         secondaryResetAt.isSome ∨ creditsHas.isSome ∨
         creditsBalance.isSome ∨ creditsUnlimited.isSome then
        some { planType := planType,
               primaryUsedPercent := primaryUsed,
               primaryResetAfterSeconds := primaryResetAfter,
               primaryWindowMinutes := primaryWindow,
               secondaryUsedPercent := secondaryUsed,
               secondaryResetAfterSeconds := secondaryResetAfter,
               secondaryWindowMinutes := secondaryWindow,
               primaryOverSecondaryPercent := primaryOverSecondary,
               primaryResetAtSeconds := primaryResetAt,
               secondaryResetAtSeconds := secondaryResetAt,
               creditsHasCredits := creditsHas,
               creditsBalance := creditsBalance,
               creditsUnlimited := creditsUnlimited,
               updatedAt := now }
      else none

/-- The in-memory registry (`codexQuotaByAuth`, a `sync.Map`), as explicit
state. -/
abbrev CodexQuotaRegistry := List (String × CodexQuotaSnapshot)

/-- Function `UpdateCodexQuotaSnapshot`: store a copy of the snapshot under a
non-empty `authID` (`none` models a nil snapshot pointer). -/
def UpdateCodexQuotaSnapshot (reg : CodexQuotaRegistry) (authID : String)
    (snapshot : Option CodexQuotaSnapshot) : CodexQuotaRegistry :=
  if authID = "" then reg
  else
    match snapshot with
    | none => reg
    | some snap => assocInsert reg authID snap

/-- Function `GetCodexQuotaSnapshot`: load the stored snapshot, if any. -/
def GetCodexQuotaSnapshot (reg : CodexQuotaRegistry) (authID : String) :
    Option CodexQuotaSnapshot :=
  if authID = "" then none
  else assocLookup reg authID

/-! ## Helper lemmas -/

theorem natToBytesBE_length (n x : Nat) : (natToBytesBE n x).length = n := by
  induction n generalizing x with
  | zero => rfl
  | succ n ih => simp [natToBytesBE, ih]

theorem sha256Compress_length (hv block : List Nat) (h : hv.length = 8) :
    (sha256Compress hv block).length = 8 := by
  match hv, h with
  | [a0, b0, c0, d0, e0, f0, g0, h0], _ => simp [sha256Compress]

theorem foldl_compress_length (cs : List (List Nat)) (hv : List Nat)
    (h : hv.length = 8) : (cs.foldl sha256Compress hv).length = 8 := by
  induction cs generalizing hv with
  | nil => simpa using h
  | cons c cs ih => exact ih _ (sha256Compress_length _ _ h)

theorem flatten_map_be4_length (ws : List Nat) :
    ((ws.map (natToBytesBE 4)).flatten).length = 4 * ws.length := by
  induction ws with
  | nil => rfl
  | cons w ws ih =>
      simp only [List.map_cons, List.flatten_cons, List.length_append,
        natToBytesBE_length, ih, List.length_cons]
      ring

/-- A SHA-256 digest is 32 bytes. -/
theorem sha256_length (msg : List Nat) : (sha256 msg).length = 32 := by
  unfold sha256
  have h := foldl_compress_length (chunks64 (sha256Pad msg)) sha256H0 (by rfl)
  rw [flatten_map_be4_length, h]

/-- A hex encoding of a non-empty byte list is a non-empty string. -/
theorem hexEncode_ne_empty (bs : List Nat) (h : bs ≠ []) : hexEncode bs ≠ "" := by
  match bs, h with
  | b :: rest, _ =>
      intro hc
      have h2 : (hexEncode (b :: rest)).data.length = 0 := by rw [hc]; rfl
      simp [hexEncode] at h2

/-- Function `sha256_16` never returns the empty string. -/
theorem sha256_16_ne_empty (s : String) : sha256_16 s ≠ "" := by
  apply hexEncode_ne_empty
  have h32 : (sha256 (utf8Encode s)).length = 32 := sha256_length _
  intro hc
  have := congrArg List.length (hc ▸ rfl : (sha256 (utf8Encode s)).take 16 = [])
  simp [List.length_take, h32] at this

/-- The characters of `goTrim`, via Mathlib's `rdropWhile`. -/
theorem goTrim_data (s : String) :
    (goTrim s).data = List.rdropWhile isGoSpace (s.data.dropWhile isGoSpace) := by
  simp [goTrim, List.rdropWhile]

/-- A front-clean list stays front-clean after trimming its back. -/
theorem dropWhile_rdropWhile_dropWhile {α : Type} (p : α → Bool) (l : List α) :
    List.dropWhile p (List.rdropWhile p (List.dropWhile p l))
      = List.rdropWhile p (List.dropWhile p l) := by
  cases ha : List.rdropWhile p (List.dropWhile p l) with
  | nil => rfl
  | cons x xs =>
      obtain ⟨t, ht⟩ := List.rdropWhile_prefix p (List.dropWhile p l)
      rw [ha] at ht
      have hx : ¬ p x = true := by
        intro hpx
        have hidem := List.dropWhile_idempotent (l := l) (p := p)
        rw [← ht] at hidem
        simp only [List.cons_append, List.dropWhile_cons, hpx, if_true] at hidem
        have hle : (List.dropWhile p (xs ++ t)).length ≤ (xs ++ t).length :=
          ((List.dropWhile_suffix (l := xs ++ t) p).sublist).length_le
        rw [hidem] at hle
        simp at hle
      simp [List.dropWhile_cons, hx]

/-- Go `TrimSpace` is idempotent. -/
theorem goTrim_idem (s : String) : goTrim (goTrim s) = goTrim s := by
  apply String.ext
  rw [goTrim_data, goTrim_data, dropWhile_rdropWhile_dropWhile,
    List.rdropWhile_idempotent]

/-- Function `stableHash` of a trim-invariant non-empty string is its `sha256_16`,
and non-empty. -/
theorem stableHash_eq_sha256_16 (s : String) (hinv : goTrim s = s) (hne : s ≠ "") :
    stableHash s = sha256_16 s ∧ stableHash s ≠ "" := by
  have h1 : stableHash s = sha256_16 s := by
    unfold stableHash sha256_16
    rw [hinv]
    simp [hne]
  refine ⟨h1, ?_⟩
  rw [h1]
  exact sha256_16_ne_empty s

/-- Association-list lookup after an overwrite of the same key. -/
theorem assocLookup_insert_self {β : Type} (l : List (String × β)) (k : String) (v : β) :
    assocLookup (assocInsert l k v) k = some v := by
  induction l with
  | nil => simp [assocInsert, assocLookup]
  | cons e rest ih =>
      by_cases he : e.1 = k
      · simp [assocInsert, he, assocLookup]
      · simp only [assocInsert, he, if_false]
        simpa [assocLookup, List.find?, he] using ih

/-- Filtering by a predicate the first hit satisfies preserves the lookup. -/
theorem assocLookup_filter {β : Type} (p : String × β → Bool)
    (l : List (String × β)) (k : String) (v : β)
    (hl : assocLookup l k = some v) (hp : p (k, v) = true) :
    assocLookup (l.filter p) k = some v := by
  induction l with
  | nil => simp [assocLookup] at hl
  | cons e rest ih =>
      by_cases he : e.1 = k
      · have hv : e.2 = v := by
          simpa [assocLookup, List.find?, he] using hl
        have he2 : e = (k, v) := by
          cases e
          simp_all
        subst he2
        simp [List.filter, hp, assocLookup, List.find?]
      · have hrest : assocLookup rest k = some v := by
          simpa [assocLookup, List.find?, he] using hl
        cases hpe : p e with
        | true =>
            simp only [List.filter, hpe]
            simpa [assocLookup, List.find?, he] using ih hrest
        | false =>
            simp only [List.filter, hpe]
            exact ih hrest

/-- Filtering cannot create a hit. -/
theorem assocLookup_filter_none {β : Type} (p : String × β → Bool)
    (l : List (String × β)) (k : String)
    (hl : assocLookup l k = none) :
    assocLookup (l.filter p) k = none := by
  induction l with
  | nil => simp [assocLookup]
  | cons e rest ih =>
      have he : ¬ e.1 = k := by
        intro hk
        simp [assocLookup, List.find?, hk] at hl
      have hrest : assocLookup rest k = none := by
        simpa [assocLookup, List.find?, he] using hl
      cases hpe : p e with
      | true =>
          simp only [List.filter, hpe]
          simpa [assocLookup, List.find?, he] using ih hrest
      | false =>
          simp only [List.filter, hpe]
          exact ih hrest

/-- With pairwise distinct ids, `find?` by a member's id returns the
member. -/
theorem find?_id_of_nodup (l : List Auth) (r : Auth)
    (hnodup : (l.map Auth.id).Nodup) (hmem : r ∈ l) :
    l.find? (fun c => c.id = r.id) = some r := by
  induction l with
  | nil => cases hmem
  | cons a rest ih =>
      rcases List.mem_cons.mp hmem with rfl | hmem2
      · simp [List.find?]
      · have hane : ¬ a.id = r.id := by
          intro he
          have : r.id ∈ rest.map Auth.id := List.mem_map_of_mem _ hmem2
          rw [← he] at this
          exact (List.nodup_cons.mp (by simpa using hnodup)).1 this
        have : (rest.map Auth.id).Nodup := (List.nodup_cons.mp (by simpa using hnodup)).2
        simp only [List.find?, hane, decide_eq_true_eq]
        simpa [hane] using ih this hmem2

/-! ## C6 — GC exactness -/

/-- The state used to refute the claim's `expiresAt ≤ now` boundary. -/
def gcBoundaryState : StickySelector :=
  { bindings := [("codex:codex:k", ⟨"a", 5, 0⟩)] }

/-- C6 counterexample: at `now = 5` a binding with `expiresAt = 5` and a
non-empty `authID` survives `gcLocked`, while the claim's removal condition
`expiresAt ≤ now` would delete it — the map the claim predicts differs from
the one the code produces. -/
theorem gc_boundary_cex :
    (gcLocked gcBoundaryState 5).bindings = [("codex:codex:k", ⟨"a", 5, 0⟩)] ∧
    (gcLocked gcBoundaryState 5).bindings ≠
      gcBoundaryState.bindings.filter
        (fun e => ¬ (e.2.expiresAt ≤ 5 ∨ e.2.authID = "")) := by
  constructor
  · rfl
  · decide

/-- C6 (amended): whenever the selector runs `gcLocked`, it removes exactly
the bindings whose `expiresAt` is strictly before `now` or whose `authID` is
empty; every other binding is preserved unchanged and in order, and `lastGC`
is stamped with `now`. -/
theorem gc_removes_strictly_expired (s : StickySelector) (now : Int) :
    (gcLocked s now).bindings.Sublist s.bindings ∧
    (∀ e, e ∈ (gcLocked s now).bindings ↔
        e ∈ s.bindings ∧ ¬ (e.2.authID = "" ∨ e.2.expiresAt < now)) ∧
    (gcLocked s now).lastGC = now := by
  unfold gcLocked
  by_cases hemp : s.bindings.isEmpty
  · have : s.bindings = [] := List.isEmpty_iff.mp hemp
    simp [hemp, this]
  · simp only [hemp, if_false]
    refine ⟨List.filter_sublist _, ?_, rfl⟩
    intro e
    simp [List.mem_filter]

/-! ## C7 — all candidates ineligible: `auth_not_found`, state untouched -/

/-- C7: when every candidate is ineligible at selection time, `Pick` fails
with code `auth_not_found` and the selector state — in particular the
bindings map — is returned exactly as it was. -/
theorem pick_all_ineligible_auth_not_found
    (s : StickySelector) (now : Int) (provider model : String)
    (opts : Options) (auths : List Auth)
    (h : ∀ a ∈ auths, authEligible a model now = false) :
    StickySelector.Pick s now provider model opts auths
      = (Except.error ⟨"auth_not_found", "no auth available"⟩, s) := by
  have hfil : auths.filter (fun a => authEligible a model now) = [] := by
    rw [List.filter_eq_nil_iff]
    intro a ha
    simp [h a ha]
  unfold StickySelector.Pick getAvailableAuths
  rw [hfil]
  rfl

/-- A credential cooled down for the model at the witness instant. -/
def cooledAuth : Auth :=
  { id := "a", provider := "codex", status := AuthStatus.active,
    modelStates := [("gpt-test",
      { unavailable := true, nextRetryAfter := 2000,
        quota := { exceeded := true, nextRecoverAt := 2000 } })] }

/-- C7 witness: a single cooled-down candidate at time 1000 makes `Pick`
fail with `auth_not_found` and leave a seeded state unchanged. -/
theorem pick_all_ineligible_auth_not_found_witness :
    StickySelector.Pick { bindings := [("codex:x", ⟨"a", 99, 0⟩)] } 1000
        "codex" "gpt-test" {} [cooledAuth]
      = (Except.error ⟨"auth_not_found", "no auth available"⟩,
         { bindings := [("codex:x", ⟨"a", 99, 0⟩)] }) :=
  pick_all_ineligible_auth_not_found _ 1000 "codex" "gpt-test" {} [cooledAuth]
    (by decide)

/-! ## C9 — Codex quota snapshot parse and round-trip -/

/-- The headers of the claim's concrete scenario. -/
def codexClaimHeader : Header :=
  ⟨[("x-codex-plan-type", "team"), ("x-codex-primary-used-percent", "12.5"),
    ("x-codex-credits-has-credits", "False")]⟩

/-- The snapshot those headers parse to, stamped `now` (`mkRat 25 2` is
`12.5`). -/
def codexClaimSnapshot (now : Int) : CodexQuotaSnapshot :=
  { planType := "team", primaryUsedPercent := some (mkRat 25 2),
    creditsHasCredits := some false, updatedAt := now }

/-- The rational stored for `12.5` is indeed `12.5`. -/
theorem codexClaimSnapshot_percent : mkRat 25 2 = (12.5 : ℚ) := by norm_num

/-- Mapping under an if-then-some-else-none. -/
theorem option_map_ite {α β : Type} (c : Prop) [Decidable c] (a : α) (f : α → β) :
    Option.map f (if c then some a else none) = if c then some (f a) else none := by
  by_cases hc : c <;> simp [hc]

/-- The `time.Now()` stamp is the only part of `ParseCodexQuotaSnapshot`
that depends on the clock. -/
theorem ParseCodexQuotaSnapshot_time (now : Int) (h : Option Header) :
    ParseCodexQuotaSnapshot now h
      = (ParseCodexQuotaSnapshot 0 h).map (fun s => { s with updatedAt := now }) := by
  unfold ParseCodexQuotaSnapshot
  cases h with
  | none => rfl
  | some hs =>
      dsimp only
      rw [option_map_ite]

/-- C9: the headers `x-codex-plan-type=team`,
`x-codex-primary-used-percent=12.5`, `x-codex-credits-has-credits=False`
parse to a snapshot with plan type `"team"`, primary used percent `12.5` and
credits flag `false` (all other fields empty); and for every snapshot and
non-empty `authID`, a `Get` after an `Update` returns a snapshot with fields
equal to the stored one. -/
theorem codex_quota_parse_roundtrip :
    (∀ now : Int, ParseCodexQuotaSnapshot now (some codexClaimHeader)
        = some (codexClaimSnapshot now)) ∧
    (∀ (reg : CodexQuotaRegistry) (authID : String) (snap : CodexQuotaSnapshot),
        authID ≠ "" →
        GetCodexQuotaSnapshot (UpdateCodexQuotaSnapshot reg authID (some snap)) authID
          = some snap) := by
  constructor
  · intro now
    rw [ParseCodexQuotaSnapshot_time]
    have h0 : ParseCodexQuotaSnapshot 0 (some codexClaimHeader)
        = some (codexClaimSnapshot 0) := by decide
    rw [h0]
    rfl
  · intro reg authID snap h
    unfold UpdateCodexQuotaSnapshot GetCodexQuotaSnapshot
    simp [h, assocLookup_insert_self]

/-- C9 witness: the round-trip at `authID = "auth-1"` with the claim's
snapshot. -/
theorem codex_quota_parse_roundtrip_witness :
    GetCodexQuotaSnapshot
        (UpdateCodexQuotaSnapshot [] "auth-1" (some (codexClaimSnapshot 7))) "auth-1"
      = some (codexClaimSnapshot 7) :=
  codex_quota_parse_roundtrip.2 [] "auth-1" (codexClaimSnapshot 7) (by decide)

/-! ## C8 — PKCE callback state verification -/

/-- A successful parse with an empty state is an error callback. -/
theorem parse_ok_empty_state (raw code ep uri : String)
    (h : parseOAuthCallbackInput raw = Except.ok (code, "", ep, uri)) :
    ep ≠ "" := by
  unfold parseOAuthCallbackInput at h
  dsimp only at h
  split at h
  · simp at h
  · split at h
    · split at h
      · simp only [Except.ok.injEq, Prod.mk.injEq] at h
        intro hep
        rw [← h.2.2.1] at hep
        simp [hep] at *
      · split at h
        · simp at h
        · split at h
          · simp at h
          · simp only [Except.ok.injEq, Prod.mk.injEq] at h
            simp_all
    · split at h
      · simp at h
      · split at h
        · simp only [Except.ok.injEq, Prod.mk.injEq] at h
          intro hep
          rw [← h.2.2.1] at hep
          simp [hep] at *
        · split at h
          · simp at h
          · split at h
            · simp at h
            · simp only [Except.ok.injEq, Prod.mk.injEq] at h
              simp_all

/-- C8 counterexample: with expected state `"st1"`, the error callback
`error=access_denied` — whose state is empty and so differs from the
expected state — passes validation, refuting "succeeds only when the
callback's state exactly matches". -/
theorem callback_state_empty_cex :
    parseAndValidateCallbackInput "st1" "error=access_denied"
        = Except.ok (⟨"", "", "access_denied"⟩, "") ∧
    ("" : String) ≠ "st1" := by
  decide

/-- C8 (amended): for a non-empty expected state, validation succeeds only
when the callback's state equals the expected state or is empty (which only
error callbacks can produce), and any callback parsing to a non-empty state
different from the expected one fails with the state-mismatch error. -/
theorem callback_state_verification (expected raw : String) (hexp : expected ≠ "") :
    (∀ cb uri, parseAndValidateCallbackInput expected raw = Except.ok (cb, uri) →
        cb.state = expected ∨ (cb.state = "" ∧ cb.error ≠ "")) ∧
    (∀ code st ep uri,
        parseOAuthCallbackInput raw = Except.ok (code, st, ep, uri) →
        st ≠ "" → st ≠ expected →
        parseAndValidateCallbackInput expected raw = Except.error "state mismatch") := by
  constructor
  · intro cb uri h
    cases hp : parseOAuthCallbackInput raw with
    | error e =>
        unfold parseAndValidateCallbackInput at h
        rw [hp] at h
        exact Except.noConfusion h
    | ok v =>
        obtain ⟨code, st, ep, u⟩ := v
        unfold parseAndValidateCallbackInput at h
        rw [hp] at h
        dsimp only at h
        by_cases hguard : expected ≠ "" ∧ st ≠ "" ∧ st ≠ expected
        · rw [if_pos hguard] at h
          exact Except.noConfusion h
        · rw [if_neg hguard] at h
          simp only [Except.ok.injEq, Prod.mk.injEq] at h
          have hcb : cb.state = st := by rw [← h.1]
          by_cases hst : st = expected
          · left; rw [hcb, hst]
          · right
            have hstz : st = "" := by
              by_contra hne
              exact hguard ⟨hexp, hne, hst⟩
            refine ⟨by rw [hcb, hstz], ?_⟩
            have hep : ep ≠ "" := parse_ok_empty_state raw code ep u (hstz ▸ hp)
            have hcbe : cb.error = ep := by rw [← h.1]
            rw [hcbe]
            exact hep
  · intro code st ep uri hp hst hne
    unfold parseAndValidateCallbackInput
    rw [hp]
    simp [hexp, hst, hne]

/-- C8 witness: a state mismatch at concrete inputs is rejected. -/
theorem callback_state_verification_witness :
    parseAndValidateCallbackInput "st1" "code=abc&state=st2"
      = Except.error "state mismatch" :=
  (callback_state_verification "st1" "code=abc&state=st2" (by decide)).2
    "abc" "st2" "" "" (by decide) (by decide) (by decide)

/-! ## C2 / C10 — the session-key cascade -/

/-- Function `goTrim` of the empty string. -/
theorem goTrim_empty : goTrim "" = "" := rfl

/-- Function `extractBearerToken` only returns trimmed strings. -/
theorem extractBearerToken_trimmed (h : String) :
    goTrim (extractBearerToken h) = extractBearerToken h := by
  unfold extractBearerToken
  dsimp only
  by_cases h0 : goTrim h = ""
  · rw [if_pos h0]; rfl
  · rw [if_neg h0]
    by_cases h1 : (splitN2Space (goTrim h)).length ≠ 2
    · rw [if_pos h1]; exact goTrim_idem h
    · rw [if_neg h1]
      by_cases h2 : goToLower ((splitN2Space (goTrim h)).headD "") ≠ "bearer"
      · rw [if_pos h2]; exact goTrim_idem h
      · rw [if_neg h2]; exact goTrim_idem _

/-- A non-empty trim-invariant token makes a hash stage fire. -/
theorem keyFromToken_eq (tag tok : String) (hinv : goTrim tok = tok)
    (hne : tok ≠ "") :
    keyFromToken tag tok = some (tag ++ sha256_16 tok) := by
  obtain ⟨h1, h2⟩ := stableHash_eq_sha256_16 tok hinv hne
  unfold keyFromToken
  rw [if_pos hne]
  dsimp only
  rw [h1, if_pos (sha256_16_ne_empty tok)]

/-- An empty token makes a hash stage miss. -/
theorem keyFromToken_empty (tag : String) : keyFromToken tag "" = none := rfl

/-- The `Authorization` stage of the cascade, shared by the C2 and C10
theorems. -/
theorem extract_key_bearer_stage (opts : Options) (hs : Header)
    (hh : opts.headers = some hs)
    (hsid : goTrim (hs.get "session_id") = "")
    (hclaude : claudeStageKey opts.originalRequest = none)
    (htok : extractBearerToken (hs.get "authorization") ≠ "") :
    extractStickySessionKey opts
      = "apikey:" ++ sha256_16 (extractBearerToken (hs.get "authorization")) := by
  unfold extractStickySessionKey
  rw [hh]
  dsimp only
  rw [hsid, keyFromToken_empty]
  dsimp only
  rw [hclaude]
  dsimp only
  rw [keyFromToken_eq _ _ (extractBearerToken_trimmed _) htok]

/-- C2 counterexample: `session_id = " x "` is a non-empty header value, but
the code hashes the trimmed value `"x"`, not the header value, so the
claimed key `"codex:" + sha256_16(" x ")` is not produced. -/
theorem extract_session_key_untrimmed_cex :
    extractStickySessionKey { headers := some ⟨[("session_id", " x ")]⟩ }
        = "codex:" ++ sha256_16 "x" ∧
    "codex:" ++ sha256_16 "x" ≠ "codex:" ++ sha256_16 " x " := by
  decide

/-- C2 (amended): the cascade conditions and hash inputs use the
whitespace-trimmed header values, and the `Authorization` token is whatever
`extractBearerToken` yields (the bearer payload, or the whole trimmed value
for a non-bearer shape): `codex:` on a non-blank `session_id`; otherwise
`claude:` plus the captured uuid when the lowered, trimmed
`metadata.user_id` matches `session_<uuid>`; otherwise `apikey:` on the
bearer token from `Authorization`, else trimmed `x-api-key`, else trimmed
`x-goog-api-key`; otherwise `ua:` on the trimmed `User-Agent`; otherwise the
empty key. -/
theorem extract_session_key_cascade (opts : Options) (hs : Header)
    (hh : opts.headers = some hs) :
    (goTrim (hs.get "session_id") ≠ "" →
      extractStickySessionKey opts
        = "codex:" ++ sha256_16 (goTrim (hs.get "session_id"))) ∧
    (goTrim (hs.get "session_id") = "" →
      ∀ body uuid, opts.originalRequest = some body →
        claudeSessionFind (goToLower (goTrim (metadataUserID body))).data
          = some uuid →
        extractStickySessionKey opts = "claude:" ++ uuid) ∧
    (goTrim (hs.get "session_id") = "" →
      claudeStageKey opts.originalRequest = none →
      extractBearerToken (hs.get "authorization") ≠ "" →
      extractStickySessionKey opts
        = "apikey:" ++ sha256_16 (extractBearerToken (hs.get "authorization"))) ∧
    (goTrim (hs.get "session_id") = "" →
      claudeStageKey opts.originalRequest = none →
      extractBearerToken (hs.get "authorization") = "" →
      goTrim (hs.get "x-api-key") ≠ "" →
      extractStickySessionKey opts
        = "apikey:" ++ sha256_16 (goTrim (hs.get "x-api-key"))) ∧
    (goTrim (hs.get "session_id") = "" →
      claudeStageKey opts.originalRequest = none →
      extractBearerToken (hs.get "authorization") = "" →
      goTrim (hs.get "x-api-key") = "" →
      goTrim (hs.get "x-goog-api-key") ≠ "" →
      extractStickySessionKey opts
        = "apikey:" ++ sha256_16 (goTrim (hs.get "x-goog-api-key"))) ∧
    (goTrim (hs.get "session_id") = "" →
      claudeStageKey opts.originalRequest = none →
      extractBearerToken (hs.get "authorization") = "" →
      goTrim (hs.get "x-api-key") = "" →
      goTrim (hs.get "x-goog-api-key") = "" →
      goTrim (hs.get "user-agent") ≠ "" →
      extractStickySessionKey opts
        = "ua:" ++ sha256_16 (goTrim (hs.get "user-agent"))) ∧
    (goTrim (hs.get "session_id") = "" →
      claudeStageKey opts.originalRequest = none →
      extractBearerToken (hs.get "authorization") = "" →
      goTrim (hs.get "x-api-key") = "" →
      goTrim (hs.get "x-goog-api-key") = "" →
      goTrim (hs.get "user-agent") = "" →
      extractStickySessionKey opts = "") := by
  refine ⟨?_, ?_, ?_, ?_, ?_, ?_, ?_⟩
  · intro h1
    unfold extractStickySessionKey
    rw [hh]
    dsimp only
    rw [keyFromToken_eq _ _ (goTrim_idem _) h1]
  · intro h1 body uuid hbody hfind
    unfold extractStickySessionKey
    rw [hh]
    dsimp only
    rw [h1, keyFromToken_empty]
    dsimp only
    have huid : goTrim (metadataUserID body) ≠ "" := by
      intro hz
      rw [hz] at hfind
      exact Option.noConfusion hfind
    have hstage : claudeStageKey opts.originalRequest = some ("claude:" ++ uuid) := by
      rw [hbody]
      unfold claudeStageKey
      dsimp only
      rw [if_pos huid, hfind]
    rw [hstage]
  · exact extract_key_bearer_stage opts hs hh
  · intro h1 h2 h3 h4
    unfold extractStickySessionKey
    rw [hh]
    dsimp only
    rw [h1, keyFromToken_empty]
    dsimp only
    rw [h2]
    dsimp only
    rw [h3, keyFromToken_empty]
    dsimp only
    rw [keyFromToken_eq _ _ (goTrim_idem _) h4]
  · intro h1 h2 h3 h4 h5
    unfold extractStickySessionKey
    rw [hh]
    dsimp only
    rw [h1, keyFromToken_empty]
    dsimp only
    rw [h2]
    dsimp only
    rw [h3, keyFromToken_empty]
    dsimp only
    rw [h4, keyFromToken_empty]
    dsimp only
    rw [keyFromToken_eq _ _ (goTrim_idem _) h5]
  · intro h1 h2 h3 h4 h5 h6
    unfold extractStickySessionKey
    rw [hh]
    dsimp only
    rw [h1, keyFromToken_empty]
    dsimp only
    rw [h2]
    dsimp only
    rw [h3, keyFromToken_empty]
    dsimp only
    rw [h4, keyFromToken_empty]
    dsimp only
    rw [h5, keyFromToken_empty]
    dsimp only
    rw [keyFromToken_eq _ _ (goTrim_idem _) h6]
  · intro h1 h2 h3 h4 h5 h6
    unfold extractStickySessionKey
    rw [hh]
    dsimp only
    rw [h1, keyFromToken_empty]
    dsimp only
    rw [h2]
    dsimp only
    rw [h3, keyFromToken_empty]
    dsimp only
    rw [h4, keyFromToken_empty]
    dsimp only
    rw [h5, keyFromToken_empty]
    dsimp only
    rw [h6, keyFromToken_empty]

/-- C2 witness: a plain `session_id` produces the `codex:` key. -/
theorem extract_session_key_cascade_witness :
    extractStickySessionKey { headers := some ⟨[("session_id", "s123")]⟩ }
      = "codex:" ++ sha256_16 "s123" :=
  (extract_session_key_cascade { headers := some ⟨[("session_id", "s123")]⟩ }
    ⟨[("session_id", "s123")]⟩ rfl).1 (by decide)

/-- C10 counterexample: the all-whitespace `Authorization` value `" "` is
non-empty and has no scheme-plus-space shape, but the derived session key is
empty — the header is skipped rather than hashed, refuting the claimed
`"apikey:" + sha256_16(value)` key. -/
theorem bearer_whitespace_cex :
    extractStickySessionKey { headers := some ⟨[("authorization", " ")]⟩ } = "" ∧
    ("" : String) ≠ "apikey:" ++ sha256_16 " " := by
  decide

/-- C10 (amended): for every `Authorization` value whose whitespace-trim is
non-empty and which does not split as a scheme and a remainder, or whose
scheme is not `bearer` case-insensitively, `extractBearerToken` returns the
whole trimmed value; if the `session_id` and Claude stages miss, the session
key is `"apikey:" + sha256_16(trimmed value)` — the header is not
skipped. -/
theorem malformed_authorization_fallback (v : String)
    (hv : goTrim v ≠ "")
    (hshape : (splitN2Space (goTrim v)).length ≠ 2 ∨
        goToLower ((splitN2Space (goTrim v)).headD "") ≠ "bearer") :
    extractBearerToken v = goTrim v ∧
    (∀ opts hs, opts.headers = some hs →
        goTrim (hs.get "session_id") = "" →
        claudeStageKey opts.originalRequest = none →
        hs.get "authorization" = v →
        extractStickySessionKey opts = "apikey:" ++ sha256_16 (goTrim v)) := by
  have hbt : extractBearerToken v = goTrim v := by
    unfold extractBearerToken
    dsimp only
    rw [if_neg hv]
    by_cases h1 : (splitN2Space (goTrim v)).length ≠ 2
    · rw [if_pos h1]
    · rcases hshape with h | h
      · exact absurd h h1
      · rw [if_neg h1, if_pos h]
  refine ⟨hbt, ?_⟩
  intro opts hs hh hsid hclaude hauth
  have htok : extractBearerToken (hs.get "authorization") ≠ "" := by
    rw [hauth, hbt]
    exact hv
  have := extract_key_bearer_stage opts hs hh hsid hclaude htok
  rw [this, hauth, hbt]

/-- C10 witness: `Authorization: Basic abc` is hashed whole. -/
theorem malformed_authorization_fallback_witness :
    extractBearerToken "Basic abc" = "Basic abc" ∧
    extractStickySessionKey { headers := some ⟨[("authorization", "Basic abc")]⟩ }
      = "apikey:" ++ sha256_16 "Basic abc" := by
  have h := malformed_authorization_fallback "Basic abc" (by decide) (by decide)
  exact ⟨h.1, h.2 { headers := some ⟨[("authorization", "Basic abc")]⟩ }
    ⟨[("authorization", "Basic abc")]⟩ rfl (by decide) rfl rfl⟩

/-! ## C5 — rendezvous tie-break determinism -/

/-- The strict rendezvous preference: `x` beats `y` (higher score, or equal
score and lexicographically smaller id). -/
def rendezvousBeats (k x y : String) : Prop :=
  rendezvousScore k y < rendezvousScore k x ∨
  (rendezvousScore k x = rendezvousScore k y ∧ x < y)

theorem rendezvousBeats_irrefl (k x : String) : ¬ rendezvousBeats k x x := by
  unfold rendezvousBeats
  simp

theorem rendezvousBeats_trans (k x y z : String)
    (h1 : rendezvousBeats k x y) (h2 : rendezvousBeats k y z) :
    rendezvousBeats k x z := by
  unfold rendezvousBeats at *
  rcases h1 with h1 | ⟨h1e, h1l⟩ <;> rcases h2 with h2 | ⟨h2e, h2l⟩
  · exact Or.inl (lt_trans h2 h1)
  · exact Or.inl (h2e ▸ h1)
  · exact Or.inl (h1e ▸ h2)
  · exact Or.inr ⟨h1e.trans h2e, lt_trans h1l h2l⟩

theorem rendezvousBeats_total (k x y : String) (h : x ≠ y) :
    rendezvousBeats k x y ∨ rendezvousBeats k y x := by
  unfold rendezvousBeats
  rcases lt_trichotomy (rendezvousScore k x) (rendezvousScore k y) with hs | hs | hs
  · exact Or.inr (Or.inl hs)
  · rcases lt_or_gt_of_ne h with hl | hl
    · exact Or.inl (Or.inr ⟨hs, hl⟩)
    · exact Or.inr (Or.inr ⟨hs.symm, hl⟩)
  · exact Or.inl (Or.inl hs)

theorem rendezvousBeats_negtrans (k x y z : String)
    (h1 : ¬ rendezvousBeats k x y) (h2 : ¬ rendezvousBeats k y z) :
    ¬ rendezvousBeats k x z := by
  intro hxz
  by_cases hxy : x = y
  · exact h2 (hxy ▸ hxz)
  · rcases rendezvousBeats_total k x y hxy with h | h
    · exact h1 h
    · exact h2 (rendezvousBeats_trans k y x z h hxz)

/-- Invariant of the rendezvous fold: the accumulator's stored score is the
score of its id, and the result never loses to a processed candidate nor to
the accumulator it started from. -/
theorem rendezvousFold_spec (k : String) :
    ∀ (l : List Auth) (acc : Option (Auth × Nat)) (r : Auth) (sc : Nat),
      (∀ b s0, acc = some (b, s0) → s0 = rendezvousScore k b.id ∧ b.id ≠ "") →
      l.foldl (rendezvousFoldStep k) acc = some (r, sc) →
      sc = rendezvousScore k r.id ∧ r.id ≠ "" ∧
      (acc = some (r, sc) ∨ r ∈ l) ∧
      (∀ c ∈ l, c.id ≠ "" → ¬ rendezvousBeats k c.id r.id) ∧
      (∀ b s0, acc = some (b, s0) → ¬ rendezvousBeats k b.id r.id) := by
  intro l
  induction l with
  | nil =>
      intro acc r sc hacc hfold
      simp only [List.foldl_nil] at hfold
      obtain ⟨hsc, hid⟩ := hacc r sc hfold
      refine ⟨hsc, hid, Or.inl hfold, by simp, ?_⟩
      intro b s0 hb
      rw [hfold] at hb
      simp only [Option.some.injEq, Prod.mk.injEq] at hb
      rw [← hb.1]
      exact rendezvousBeats_irrefl k r.id
  | cons c cs ih =>
      intro acc r sc hacc hfold
      simp only [List.foldl_cons] at hfold
      -- the new accumulator after processing c
      have hacc' : ∀ b s0, rendezvousFoldStep k acc c = some (b, s0) →
          s0 = rendezvousScore k b.id ∧ b.id ≠ "" := by
        intro b s0 hb
        unfold rendezvousFoldStep at hb
        by_cases hcz : c.id = ""
        · rw [if_pos hcz] at hb
          exact hacc b s0 hb
        · rw [if_neg hcz] at hb
          dsimp only at hb
          cases hacc0 : acc with
          | none =>
              rw [hacc0] at hb
              simp only [Option.some.injEq, Prod.mk.injEq] at hb
              obtain ⟨hb1, hb2⟩ := hb
              subst hb1
              exact ⟨hb2.symm, hcz⟩
          | some p =>
              obtain ⟨b0, s0'⟩ := p
              rw [hacc0] at hb
              dsimp only at hb
              split at hb
              · simp only [Option.some.injEq, Prod.mk.injEq] at hb
                obtain ⟨hb1, hb2⟩ := hb
                subst hb1
                exact ⟨hb2.symm, hcz⟩
              · exact hacc b s0 (hacc0 ▸ hb)
      obtain ⟨hsc, hid, hmem, hmaxcs, hmaxacc'⟩ := ih (rendezvousFoldStep k acc c) r sc hacc' hfold
      -- no processed candidate beats the result
      have hc_not_beats : c.id ≠ "" → ¬ rendezvousBeats k c.id r.id := by
        intro hcz
        unfold rendezvousFoldStep at hmaxacc'
        rw [if_neg hcz] at hmaxacc'
        cases hacc0 : acc with
        | none =>
            apply hmaxacc' c (rendezvousScore k c.id)
            rw [hacc0]
        | some p =>
            obtain ⟨b0, s0⟩ := p
            obtain ⟨hs0, hb0⟩ := hacc b0 s0 hacc0
            rw [hacc0] at hmaxacc'
            dsimp only at hmaxacc'
            by_cases htest : rendezvousScore k c.id > s0 ∨
                (rendezvousScore k c.id = s0 ∧ c.id < b0.id)
            · exact hmaxacc' c (rendezvousScore k c.id) (by rw [if_pos htest])
            · have hnb : ¬ rendezvousBeats k c.id b0.id := by
                rw [hs0] at htest
                exact htest
              have hb0r : ¬ rendezvousBeats k b0.id r.id :=
                hmaxacc' b0 s0 (by rw [if_neg htest])
              exact rendezvousBeats_negtrans k c.id b0.id r.id hnb hb0r
      refine ⟨hsc, hid, ?_, ?_, ?_⟩
      · -- provenance
        rcases hmem with hmem | hmem
        · unfold rendezvousFoldStep at hmem
          by_cases hcz : c.id = ""
          · rw [if_pos hcz] at hmem
            exact Or.inl hmem
          · rw [if_neg hcz] at hmem
            dsimp only at hmem
            cases hacc0 : acc with
            | none =>
                rw [hacc0] at hmem
                simp only [Option.some.injEq, Prod.mk.injEq] at hmem
                obtain ⟨hm1, _⟩ := hmem
                subst hm1
                exact Or.inr (List.mem_cons_self c cs)
            | some p =>
                obtain ⟨b0, s0⟩ := p
                rw [hacc0] at hmem
                dsimp only at hmem
                split at hmem
                · simp only [Option.some.injEq, Prod.mk.injEq] at hmem
                  obtain ⟨hm1, _⟩ := hmem
                  subst hm1
                  exact Or.inr (List.mem_cons_self c cs)
                · exact Or.inl (hacc0 ▸ hmem)
        · exact Or.inr (List.mem_cons_of_mem c hmem)
      · intro c' hc' hcz'
        rcases List.mem_cons.mp hc' with rfl | hc'
        · exact hc_not_beats hcz'
        · exact hmaxcs c' hc' hcz'
      · intro b s0 hb
        obtain ⟨hs0, hbz⟩ := hacc b s0 hb
        unfold rendezvousFoldStep at hmaxacc'
        by_cases hcz : c.id = ""
        · exact hmaxacc' b s0 (by rw [if_pos hcz]; exact hb)
        · rw [if_neg hcz, hb] at hmaxacc'
          dsimp only at hmaxacc'
          by_cases htest : rendezvousScore k c.id > s0 ∨
              (rendezvousScore k c.id = s0 ∧ c.id < b.id)
          · have hcr : ¬ rendezvousBeats k c.id r.id :=
              hmaxacc' c (rendezvousScore k c.id) (by rw [if_pos htest])
            have hcb : rendezvousBeats k c.id b.id := by
              rw [hs0] at htest
              exact htest
            intro hbr
            exact hcr (rendezvousBeats_trans k c.id b.id r.id hcb hbr)
          · exact hmaxacc' b s0 (by rw [if_neg htest])

/-- What a successful `pickRendezvous` returns: a member with a non-empty
id that no candidate beats. -/
theorem pickRendezvous_spec (k : String) (l : List Auth) (r : Auth)
    (h : pickRendezvous k l = some r) :
    r ∈ l ∧ r.id ≠ "" ∧ ∀ c ∈ l, c.id ≠ "" → ¬ rendezvousBeats k c.id r.id := by
  unfold pickRendezvous at h
  by_cases hg : k = "" ∨ l.isEmpty
  · rw [if_pos hg] at h
    exact Option.noConfusion h
  · rw [if_neg hg] at h
    cases hf : l.foldl (rendezvousFoldStep k) none with
    | none => rw [hf] at h; exact Option.noConfusion h
    | some p =>
        obtain ⟨r', sc⟩ := p
        rw [hf] at h
        simp only [Option.map_some', Option.some.injEq] at h
        subst h
        obtain ⟨_, hid, hmem, hmax, _⟩ :=
          rendezvousFold_spec k l none r' sc (by intro b s0 hb; exact Option.noConfusion hb) hf
        rcases hmem with hmem | hmem
        · exact Option.noConfusion hmem
        · exact ⟨hmem, hid, hmax⟩

/-- C5: a successfully picked record is a member with maximal rendezvous
score, with score ties broken toward the lexicographically smaller id; and
two runs over candidate lists with the same non-empty-id set pick the same
id. -/
theorem rendezvous_tiebreak_det (k : String) (l1 l2 : List Auth) (r1 r2 : Auth)
    (h1 : pickRendezvous k l1 = some r1) (h2 : pickRendezvous k l2 = some r2)
    (hids : ∀ x, x ≠ "" → ((x ∈ l1.map Auth.id) ↔ (x ∈ l2.map Auth.id))) :
    (r1 ∈ l1 ∧ r1.id ≠ "" ∧
      ∀ c ∈ l1, c.id ≠ "" →
        rendezvousScore k c.id ≤ rendezvousScore k r1.id ∧
        (rendezvousScore k c.id = rendezvousScore k r1.id → r1.id ≤ c.id)) ∧
    r1.id = r2.id := by
  obtain ⟨hm1, hz1, hmax1⟩ := pickRendezvous_spec k l1 r1 h1
  obtain ⟨hm2, hz2, hmax2⟩ := pickRendezvous_spec k l2 r2 h2
  constructor
  · refine ⟨hm1, hz1, ?_⟩
    intro c hc hcz
    have hnb := hmax1 c hc hcz
    unfold rendezvousBeats at hnb
    push_neg at hnb
    exact ⟨hnb.1, fun he => le_of_not_lt (hnb.2 he)⟩
  · by_contra hne
    -- each winner's id is in the other list
    have hr2l1 : ∃ c ∈ l1, c.id = r2.id := by
      have : r2.id ∈ l1.map Auth.id :=
        (hids r2.id hz2).mpr (List.mem_map_of_mem Auth.id hm2)
      obtain ⟨c, hc, hcid⟩ := List.mem_map.mp this
      exact ⟨c, hc, hcid⟩
    have hr1l2 : ∃ c ∈ l2, c.id = r1.id := by
      have : r1.id ∈ l2.map Auth.id :=
        (hids r1.id hz1).mp (List.mem_map_of_mem Auth.id hm1)
      obtain ⟨c, hc, hcid⟩ := List.mem_map.mp this
      exact ⟨c, hc, hcid⟩
    obtain ⟨c2, hc2, hc2id⟩ := hr2l1
    obtain ⟨c1, hc1, hc1id⟩ := hr1l2
    have hn21 : ¬ rendezvousBeats k r2.id r1.id :=
      hc2id ▸ hmax1 c2 hc2 (hc2id.symm ▸ hz2)
    have hn12 : ¬ rendezvousBeats k r1.id r2.id :=
      hc1id ▸ hmax2 c1 hc1 (hc1id.symm ▸ hz1)
    rcases rendezvousBeats_total k r1.id r2.id hne with h | h
    · exact hn12 h
    · exact hn21 h

/-- A plain active record with id `a`. -/
def rvA : Auth := { id := "a", provider := "codex", status := AuthStatus.active }

/-- A plain active record with id `b`. -/
def rvB : Auth := { id := "b", provider := "codex", status := AuthStatus.active }

/-- C5 witness: for key `"k0"` and ids `a`, `b` in either order the picked
record is `a`, and `b` does not outscore it. -/
theorem rendezvous_tiebreak_det_witness :
    rendezvousScore "k0" rvB.id ≤ rendezvousScore "k0" rvA.id ∧
    (rendezvousScore "k0" rvB.id = rendezvousScore "k0" rvA.id →
      rvA.id ≤ rvB.id) := by
  have h := rendezvous_tiebreak_det "k0" [rvA, rvB] [rvB, rvA] rvA rvA
    (by decide) (by decide)
    (by intro x hx; simp [rvA, rvB]; tauto)
  exact h.1.2.2 rvB (by simp) (by decide)

/-! ## C4 — priority parsing and minimum-priority filtering -/

/-- A fold of running minima is bounded by its start. -/
theorem foldl_min_le_init (l : List Auth) (init : Int) :
    l.foldl (fun m c => min m (authPriority c)) init ≤ init := by
  induction l generalizing init with
  | nil => exact le_refl init
  | cons a rest ih =>
      exact le_trans (ih (min init (authPriority a))) (min_le_left _ _)

/-- A fold of running minima is bounded by every element. -/
theorem foldl_min_le (l : List Auth) (init : Int) (c : Auth) (hc : c ∈ l) :
    l.foldl (fun m c => min m (authPriority c)) init ≤ authPriority c := by
  induction l generalizing init with
  | nil => cases hc
  | cons a rest ih =>
      rcases List.mem_cons.mp hc with rfl | hmem
      · exact le_trans (foldl_min_le_init rest _) (min_le_right _ _)
      · exact ih (min init (authPriority a)) hmem

/-- The low-priority and high-priority records of the counterexample. -/
def prioAuthA : Auth :=
  { id := "a", provider := "codex", status := AuthStatus.active,
    metadata := [("priority", MetaValue.int 10)] }

/-- See `prioAuthA`. -/
def prioAuthB : Auth :=
  { id := "b", provider := "codex", status := AuthStatus.active,
    metadata := [("priority", MetaValue.int 50)] }

/-- The request of the counterexample. -/
def prioOpts : Options := { headers := some ⟨[("session_id", "s123")]⟩ }

/-- A selector state whose session is already bound to the high-valued
record `b`. -/
def prioState : StickySelector :=
  { bindings := [("codex:" ++ extractStickySessionKey prioOpts, ⟨"b", 1000, 0⟩)],
    lastGC := 500 }

/-- C4 counterexample: with a live sticky binding to `b` (priority 50),
`Pick` returns `b` even though the eligible candidate `a` has the strictly
lower priority value 10 — the lower-priority record is not "always selected
regardless of session key". -/
theorem priority_binding_override_cex :
    authPriority prioAuthA < authPriority prioAuthB ∧
    authEligible prioAuthA "gpt" 500 = true ∧
    (StickySelector.Pick prioState 500 "codex" "gpt" prioOpts
        [prioAuthA, prioAuthB]).1 = Except.ok prioAuthB := by
  decide

/-- C4 (amended): `authPriority` reads `metadata.priority` first — as int,
float (truncated toward zero) or numeric string — then `attributes.priority`
as a numeric string, defaulting to 50 for missing or non-numeric values; and
for a session with no existing binding, a successful `Pick` returns an
eligible record of minimal priority, so a strictly lower-valued candidate
wins regardless of the session key. -/
theorem priority_parse_and_min_filter :
    (∀ a : Auth,
      (∀ i, assocLookup a.metadata "priority" = some (MetaValue.int i) →
          authPriority a = i) ∧
      (∀ q, assocLookup a.metadata "priority" = some (MetaValue.float64 q) →
          authPriority a = truncRat q) ∧
      (∀ str p, assocLookup a.metadata "priority" = some (MetaValue.str str) →
          goAtoi (goTrim str) = some p → authPriority a = p) ∧
      (∀ v p, assocLookup a.metadata "priority" = none →
          assocLookup a.attributes "priority" = some v →
          goAtoi (goTrim v) = some p → authPriority a = p) ∧
      (assocLookup a.metadata "priority" = none →
          assocLookup a.attributes "priority" = none →
          authPriority a = 50) ∧
      (∀ v, assocLookup a.metadata "priority" = some v →
          (priorityFromAny v).2 = false →
          assocLookup a.attributes "priority" = none →
          authPriority a = 50)) ∧
    (∀ (s : StickySelector) (now : Int) (provider model : String)
        (opts : Options) (auths avail : List Auth) (r : Auth)
        (s' : StickySelector),
      getAvailableAuths auths model now = Except.ok avail →
      extractStickySessionKey opts ≠ "" →
      assocLookup s.bindings
        (provider ++ ":" ++ extractStickySessionKey opts) = none →
      StickySelector.Pick s now provider model opts auths = (Except.ok r, s') →
      r ∈ avail ∧ ∀ c ∈ avail, authPriority r ≤ authPriority c) := by
  constructor
  · intro a
    refine ⟨?_, ?_, ?_, ?_, ?_, ?_⟩
    · intro i h
      unfold authPriority
      rw [h]
      rfl
    · intro q h
      unfold authPriority
      rw [h]
      rfl
    · intro str p h hp
      unfold authPriority
      rw [h]
      dsimp only [priorityFromAny]
      by_cases hz : goTrim str = ""
      · rw [hz] at hp
        rw [show goAtoi "" = none from rfl] at hp
        exact Option.noConfusion hp
      · rw [if_neg hz, hp]
    · intro v p hmeta hattr hp
      unfold authPriority
      rw [hmeta]
      dsimp only
      rw [hattr]
      dsimp only [Option.getD]
      by_cases hz : goTrim v = ""
      · rw [hz] at hp
        rw [show goAtoi "" = none from rfl] at hp
        exact Option.noConfusion hp
      · rw [if_pos hz, hp]
    · intro hmeta hattr
      unfold authPriority
      rw [hmeta, hattr]
      rfl
    · intro v hmeta hsnd hattr
      unfold authPriority
      rw [hmeta]
      dsimp only
      cases hpr : priorityFromAny v with
      | mk pv bv =>
          rw [hpr] at hsnd
          dsimp only at hsnd
          subst hsnd
          dsimp only
          rw [hattr]
          rfl
  · intro s now provider model opts auths avail r s' hav hk hnone hok
    unfold StickySelector.Pick at hok
    rw [hav] at hok
    dsimp only at hok
    rw [if_neg hk] at hok
    set bk := provider ++ ":" ++ extractStickySessionKey opts with hbk
    -- the (possibly GC'd) state still has no binding for the key
    set s1 := if ¬ s.bindings.isEmpty ∧
        (stickyGCMinEntries ≤ s.bindings.length ∨ s.lastGC = 0 ∨
         stickyGCInterval ≤ now - s.lastGC)
      then gcLocked s now else s with hs1
    have hnone1 : assocLookup s1.bindings bk = none := by
      rw [hs1]
      split
      · unfold gcLocked
        by_cases hemp : s.bindings.isEmpty
        · rw [if_pos hemp]
          exact hnone
        · rw [if_neg hemp]
          exact assocLookup_filter_none _ _ _ hnone
      · exact hnone
    rw [hnone1] at hok
    dsimp only at hok
    -- the new-session tail
    unfold pickNewSession at hok
    dsimp only at hok
    cases hpr : pickRendezvous (extractStickySessionKey opts)
        ((avail.filter fun c =>
            authPriority c
              = avail.foldl (fun m c => min m (authPriority c)) maxGoInt).filter
          fun c => c.id ≠ "" ∧
            Int.ofNat (bindingLoad s1.bindings provider now c.id)
              = (avail.filter fun c =>
                  authPriority c
                    = avail.foldl (fun m c => min m (authPriority c)) maxGoInt).foldl
                  (fun m c => if c.id = "" then m
                    else min m (Int.ofNat (bindingLoad s1.bindings provider now c.id)))
                  maxGoInt) with
    | none =>
        rw [hpr] at hok
        dsimp only at hok
        exact absurd (congrArg Prod.fst hok) (by simp)
    | some selected =>
        rw [hpr] at hok
        dsimp only at hok
        have hsel : selected = r := by
          have := congrArg Prod.fst hok
          simpa using this
        subst hsel
        obtain ⟨hmem, _, _⟩ := pickRendezvous_spec _ _ _ hpr
        have hmem2 := List.mem_filter.mp hmem
        have hmem3 := List.mem_filter.mp hmem2.1
        have hprio : authPriority selected
            = avail.foldl (fun m c => min m (authPriority c)) maxGoInt := by
          have := hmem3.2
          simpa using this
        refine ⟨hmem3.1, ?_⟩
        intro c hc
        rw [hprio]
        exact foldl_min_le avail maxGoInt c hc

/-- C4 witness: with no existing binding, the priority-10 record is chosen
over the priority-50 record, and its priority is the smaller one. -/
theorem priority_parse_and_min_filter_witness :
    authPriority prioAuthA ≤ authPriority prioAuthB := by
  have h1 : (StickySelector.Pick {} 500 "codex" "gpt" prioOpts
      [prioAuthB, prioAuthA]).1 = Except.ok prioAuthA := by decide
  have hok : StickySelector.Pick {} 500 "codex" "gpt" prioOpts
      [prioAuthB, prioAuthA]
      = (Except.ok prioAuthA,
         (StickySelector.Pick {} 500 "codex" "gpt" prioOpts
           [prioAuthB, prioAuthA]).2) := by
    rw [← h1]
  have h := priority_parse_and_min_filter.2 {} 500 "codex" "gpt" prioOpts
    [prioAuthB, prioAuthA] [prioAuthB, prioAuthA] prioAuthA
    (StickySelector.Pick {} 500 "codex" "gpt" prioOpts [prioAuthB, prioAuthA]).2
    (by decide) (by decide) rfl hok
  exact h.2 prioAuthB (by simp)

/-! ## C1 / C3 — sticky-session stability and failover permanence -/

/-- Repeated calls to `Pick`, returning each call's result and post-state. -/
def pickTrace (s : StickySelector) (provider model : String) (opts : Options)
    (auths : List Auth) : List Int → List (Except SelectError Auth × StickySelector)
  | [] => []
  | t :: ts =>
      StickySelector.Pick s t provider model opts auths ::
        pickTrace (StickySelector.Pick s t provider model opts auths).2
          provider model opts auths ts

/-- A successful new-session selection: the record comes from the available
list with a non-empty id, and the key is bound to it until `now + TTL`. -/
theorem pickNewSession_ok (s : StickySelector) (now : Int) (provider sk bk : String)
    (avail : List Auth) (r : Auth) (s' : StickySelector)
    (hok : pickNewSession s now provider sk bk avail = (Except.ok r, s')) :
    r ∈ avail ∧ r.id ≠ "" ∧
    s'.bindings = assocInsert s.bindings bk ⟨r.id, now + stickySessionTTL, now⟩ := by
  unfold pickNewSession at hok
  dsimp only at hok
  split at hok
  · exact absurd (congrArg Prod.fst hok) (by simp)
  · rename_i selected hpr
    have h1 : selected = r := by simpa using congrArg Prod.fst hok
    subst h1
    have h2 : s'.bindings
        = assocInsert s.bindings bk ⟨selected.id, now + stickySessionTTL, now⟩ := by
      have := congrArg Prod.snd hok
      dsimp at this
      rw [← this]
    obtain ⟨hmem, hid, _⟩ := pickRendezvous_spec _ _ _ hpr
    have hmem2 := List.mem_filter.mp hmem
    have hmem3 := List.mem_filter.mp hmem2.1
    exact ⟨hmem3.1, hid, h2⟩

/-- A successful `Pick` with a non-empty session key: the record is
available, has a non-empty id, and the post-state binds the session key to
it until `now + TTL`. -/
theorem Pick_ok_binding (s : StickySelector) (now : Int) (provider model : String)
    (opts : Options) (auths avail : List Auth) (r : Auth) (s' : StickySelector)
    (hav : getAvailableAuths auths model now = Except.ok avail)
    (hk : extractStickySessionKey opts ≠ "")
    (hok : StickySelector.Pick s now provider model opts auths = (Except.ok r, s')) :
    r ∈ avail ∧ r.id ≠ "" ∧
    assocLookup s'.bindings (provider ++ ":" ++ extractStickySessionKey opts)
      = some ⟨r.id, now + stickySessionTTL, now⟩ := by
  unfold StickySelector.Pick at hok
  rw [hav] at hok
  dsimp only at hok
  rw [if_neg hk] at hok
  split at hok
  · -- an existing binding was found
    rename_i existing hlu
    split at hok
    · -- it is live
      rename_i hlive
      split at hok
      · -- the bound record is available: served and refreshed
        rename_i candidate hfind
        have h1 : candidate = r := by simpa using congrArg Prod.fst hok
        subst h1
        have h2 := congrArg Prod.snd hok
        dsimp at h2
        have hcm : candidate ∈ avail := List.mem_of_find?_eq_some hfind
        have hcid : candidate.id = existing.authID := by
          have := List.find?_some hfind
          simpa using this
        refine ⟨hcm, hcid ▸ hlive.1, ?_⟩
        rw [← h2]
        exact assocLookup_insert_self _ _ _
      · -- failover: new-session tail on the unchanged map
        obtain ⟨hmem, hid, hb⟩ := pickNewSession_ok _ _ _ _ _ _ _ _ hok
        exact ⟨hmem, hid, hb ▸ assocLookup_insert_self _ _ _⟩
    · -- stale binding: deleted, then the new-session tail
      obtain ⟨hmem, hid, hb⟩ := pickNewSession_ok _ _ _ _ _ _ _ _ hok
      exact ⟨hmem, hid, hb ▸ assocLookup_insert_self _ _ _⟩
  · -- no binding: the new-session tail
    obtain ⟨hmem, hid, hb⟩ := pickNewSession_ok _ _ _ _ _ _ _ _ hok
    exact ⟨hmem, hid, hb ▸ assocLookup_insert_self _ _ _⟩

/-- A live binding to an available record is served and refreshed: the hit
path of `Pick`. -/
theorem Pick_hit_step (s : StickySelector) (now : Int) (provider model : String)
    (opts : Options) (auths avail : List Auth) (r : Auth) (e lu : Int)
    (hav : getAvailableAuths auths model now = Except.ok avail)
    (hk : extractStickySessionKey opts ≠ "")
    (hmem : r ∈ avail) (hnodup : (avail.map Auth.id).Nodup)
    (hid : r.id ≠ "")
    (hbind : assocLookup s.bindings (provider ++ ":" ++ extractStickySessionKey opts)
        = some ⟨r.id, e, lu⟩)
    (hlive : now < e) :
    (StickySelector.Pick s now provider model opts auths).1 = Except.ok r ∧
    assocLookup (StickySelector.Pick s now provider model opts auths).2.bindings
        (provider ++ ":" ++ extractStickySessionKey opts)
      = some ⟨r.id, now + stickySessionTTL, now⟩ := by
  unfold StickySelector.Pick
  rw [hav]
  dsimp only
  rw [if_neg hk]
  have hb1 : assocLookup
      (if ¬ s.bindings.isEmpty ∧
          (stickyGCMinEntries ≤ s.bindings.length ∨ s.lastGC = 0 ∨
           stickyGCInterval ≤ now - s.lastGC)
        then gcLocked s now else s).bindings
      (provider ++ ":" ++ extractStickySessionKey opts) = some ⟨r.id, e, lu⟩ := by
    split
    · unfold gcLocked
      by_cases hemp : s.bindings.isEmpty
      · rw [if_pos hemp]
        exact hbind
      · rw [if_neg hemp]
        dsimp only
        apply assocLookup_filter _ _ _ _ hbind
        simp only [decide_eq_true_eq]
        push_neg
        exact ⟨hid, by omega⟩
    · exact hbind
  rw [hb1]
  dsimp only
  rw [if_pos ⟨hid, hlive⟩, find?_id_of_nodup avail r hnodup hmem]
  exact ⟨rfl, assocLookup_insert_self _ _ _⟩

/-- The inductive step repeated: every later call within the TTL of the
previous one, with the bound record still available, returns it again and
re-stamps the binding. -/
theorem pickTrace_stable (provider model : String) (opts : Options)
    (auths : List Auth) (r : Auth)
    (hk : extractStickySessionKey opts ≠ "") (hid : r.id ≠ "") :
    ∀ (ts : List Int) (s : StickySelector) (tprev : Int),
      assocLookup s.bindings (provider ++ ":" ++ extractStickySessionKey opts)
        = some ⟨r.id, tprev + stickySessionTTL, tprev⟩ →
      List.Chain (fun a b => b < a + stickySessionTTL) tprev ts →
      (∀ t ∈ ts, ∃ avail, getAvailableAuths auths model t = Except.ok avail ∧
          r ∈ avail ∧ (avail.map Auth.id).Nodup) →
      List.Forall₂
        (fun t p => p.1 = Except.ok r ∧
          assocLookup p.2.bindings (provider ++ ":" ++ extractStickySessionKey opts)
            = some ⟨r.id, t + stickySessionTTL, t⟩)
        ts (pickTrace s provider model opts auths ts) := by
  intro ts
  induction ts with
  | nil =>
      intro s tprev _ _ _
      exact List.Forall₂.nil
  | cons t ts ih =>
      intro s tprev hbind hchain havail
      obtain ⟨avail, hav, hmem, hnodup⟩ := havail t (List.mem_cons_self _ _)
      rw [List.chain_cons] at hchain
      have hstep := Pick_hit_step s t provider model opts auths avail r
        (tprev + stickySessionTTL) tprev hav hk hmem hnodup hid hbind hchain.1
      unfold pickTrace
      exact List.Forall₂.cons ⟨hstep.1, hstep.2⟩
        (ih (StickySelector.Pick s t provider model opts auths).2 t hstep.2
          hchain.2 (fun t' ht' => havail t' (List.mem_cons_of_mem _ ht')))

/-- C1: for a fixed `(provider, sessionKey)` pair, once a `Pick` has
returned a record `r`, every further `Pick` with the same eligible candidate
set whose time stays within the 1-hour TTL of the previous call returns the
same record, and each hit re-stamps the binding with
`expiresAt = now + 1h` and `lastUsedAt = now`. -/
theorem sticky_session_stability
    (s : StickySelector) (provider model : String) (opts : Options)
    (auths avail : List Auth) (r : Auth) (s1 : StickySelector)
    (t0 : Int) (ts : List Int)
    (hk : extractStickySessionKey opts ≠ "")
    (havail : ∀ t ∈ t0 :: ts, getAvailableAuths auths model t = Except.ok avail)
    (hnodup : (avail.map Auth.id).Nodup)
    (hchain : List.Chain (fun a b => b < a + stickySessionTTL) t0 ts)
    (hfirst : StickySelector.Pick s t0 provider model opts auths = (Except.ok r, s1)) :
    List.Forall₂
      (fun t p => p.1 = Except.ok r ∧
        assocLookup p.2.bindings (provider ++ ":" ++ extractStickySessionKey opts)
          = some ⟨r.id, t + stickySessionTTL, t⟩)
      (t0 :: ts) (pickTrace s provider model opts auths (t0 :: ts)) := by
  obtain ⟨hmem, hid, hbind⟩ := Pick_ok_binding s t0 provider model opts auths avail r s1
    (havail t0 (List.mem_cons_self _ _)) hk hfirst
  unfold pickTrace
  rw [hfirst]
  exact List.Forall₂.cons ⟨rfl, hbind⟩
    (pickTrace_stable provider model opts auths r hk hid ts s1 t0 hbind hchain
      (fun t ht => ⟨avail, havail t (List.mem_cons_of_mem _ ht), hmem, hnodup⟩))

/-- The request of the C1 and C3 witnesses. -/
def c1Opts : Options := { headers := some ⟨[("session_id", "s1")]⟩ }

/-- C1 witness: two calls at times 0 and 100 (within the TTL) both return
the record the first call bound, re-stamping the binding each time. -/
theorem sticky_session_stability_witness :
    List.Forall₂
      (fun t p => p.1 = Except.ok rvA ∧
        assocLookup p.2.bindings ("codex" ++ ":" ++ extractStickySessionKey c1Opts)
          = some ⟨rvA.id, t + stickySessionTTL, t⟩)
      [0, 100] (pickTrace {} "codex" "gpt" c1Opts [rvA, rvB] [0, 100]) := by
  have h1 : (StickySelector.Pick {} 0 "codex" "gpt" c1Opts [rvA, rvB]).1
      = Except.ok rvA := by decide
  have hok : StickySelector.Pick {} 0 "codex" "gpt" c1Opts [rvA, rvB]
      = (Except.ok rvA,
         (StickySelector.Pick {} 0 "codex" "gpt" c1Opts [rvA, rvB]).2) := by
    rw [← h1]
  exact sticky_session_stability {} "codex" "gpt" c1Opts [rvA, rvB] [rvA, rvB]
    rvA (StickySelector.Pick {} 0 "codex" "gpt" c1Opts [rvA, rvB]).2 0 [100]
    (by decide) (by decide) (by decide)
    (List.Chain.cons (by decide) List.Chain.nil) hok

/-- Transport a pointwise property along `Forall₂`. -/
theorem forall₂_right_forall {α β : Type} {R : α → β → Prop} {P : β → Prop}
    (h : ∀ a b, R a b → P b) :
    ∀ {l1 : List α} {l2 : List β}, List.Forall₂ R l1 l2 → l2.Forall P := by
  intro l1 l2 hf
  induction hf with
  | nil => trivial
  | cons hr _ ih =>
      rw [List.forall_cons]
      exact ⟨h _ _ hr, ih⟩

/-- C3: once a `Pick` has bound the session to a failover record `y` with
`y.id ≠ x.id`, every later `Pick` within the TTL of the previous call
returns `y` and never the original record `x`, as long as `y` stays
eligible — even at times at which `x` is eligible again. -/
theorem failover_no_rebind
    (s : StickySelector) (provider model : String) (opts : Options)
    (auths : List Auth) (x y : Auth) (s1 : StickySelector)
    (t1 : Int) (ts : List Int) (avail1 : List Auth)
    (hk : extractStickySessionKey opts ≠ "")
    (hxy : y.id ≠ x.id)
    (hav1 : getAvailableAuths auths model t1 = Except.ok avail1)
    (hfail : StickySelector.Pick s t1 provider model opts auths = (Except.ok y, s1))
    (hchain : List.Chain (fun a b => b < a + stickySessionTTL) t1 ts)
    (havail : ∀ t ∈ ts, ∃ avail, getAvailableAuths auths model t = Except.ok avail ∧
        y ∈ avail ∧ (avail.map Auth.id).Nodup) :
    (pickTrace s1 provider model opts auths ts).Forall
      (fun p => p.1 = Except.ok y ∧ p.1 ≠ Except.ok x) := by
  obtain ⟨_, hid, hbind⟩ :=
    Pick_ok_binding s t1 provider model opts auths avail1 y s1 hav1 hk hfail
  have hstable := pickTrace_stable provider model opts auths y hk hid ts s1 t1
    hbind hchain havail
  apply forall₂_right_forall _ hstable
  intro t p hr
  refine ⟨hr.1, ?_⟩
  rw [hr.1]
  intro hc
  have hyx : y = x := by
    injection hc
  exact hxy (congrArg Auth.id hyx)

/-- The original record of the C3 witness: cooled down for the model at
time 100, recovered by time 200. -/
def coolA : Auth :=
  { id := "a", provider := "codex", status := AuthStatus.active,
    modelStates := [("gpt",
      { unavailable := true, nextRetryAfter := 150,
        quota := { exceeded := true, nextRecoverAt := 150 } })] }

/-- C3 witness: at time 100 only `b` is eligible and gets bound; at time
200 the record `a` is eligible again, yet the call still returns `b`. -/
theorem failover_no_rebind_witness :
    (pickTrace (StickySelector.Pick {} 100 "codex" "gpt" c1Opts [coolA, rvB]).2
        "codex" "gpt" c1Opts [coolA, rvB] [200]).Forall
      (fun p => p.1 = Except.ok rvB ∧ p.1 ≠ Except.ok coolA) := by
  have h1 : (StickySelector.Pick {} 100 "codex" "gpt" c1Opts [coolA, rvB]).1
      = Except.ok rvB := by decide
  have hok : StickySelector.Pick {} 100 "codex" "gpt" c1Opts [coolA, rvB]
      = (Except.ok rvB,
         (StickySelector.Pick {} 100 "codex" "gpt" c1Opts [coolA, rvB]).2) := by
    rw [← h1]
  exact failover_no_rebind {} "codex" "gpt" c1Opts [coolA, rvB] coolA rvB
    (StickySelector.Pick {} 100 "codex" "gpt" c1Opts [coolA, rvB]).2 100 [200] [rvB]
    (by decide) (by decide) (by decide) hok
    (List.Chain.cons (by decide) List.Chain.nil)
    (by
      intro t ht
      simp only [List.mem_singleton] at ht
      subst ht
      exact ⟨[coolA, rvB], by decide, by decide, by decide⟩)

end CLIProxy
